import Mathlib

/-!
Shallow embedding of the mud_battle_bot battle engine and duel synchronizer
(src/mud_battle_bot/models.py, engine.py, duel.py, render.py).

Python mutable objects are modelled by explicit state passing; Python
exceptions (KeyError, ValueError, AssertionError) by Except String; the
standard library Mersenne-Twister generator random.Random by a deterministic
linear congruential generator with the same interface shape (randint,
random, choices), whose pickled+base64 state token is modelled by a
base-256 digit list.  Python floats (skill chance, unit-interval draws)
are modelled exactly by integer fractions with positive denominators.
Dictionaries (skill catalog, cooldowns, pending
actions) are insertion-ordered association lists, matching Python dict
iteration order.
-/

deriving instance DecidableEq for Except

namespace MudBattle

/-- Skill effect kinds, from models.SkillType. -/
inductive SkillType
  | damage
  | applyStatus
  | addShield
  deriving DecidableEq, Repr

/-- Fraction num/den standing in for a Python float; all fractions built
by the embedding carry a positive denominator. -/
structure Frac where
  num : Int
  den : Int
  deriving DecidableEq, Repr

/-- Comparison of fractions with positive denominators by
cross-multiplication. -/
def Frac.le (a b : Frac) : Bool := a.num * b.den ≤ b.num * a.den

/-- Skill definition, from models.Skill.  The float field chance is
modelled as a fraction. -/
structure Skill where
  key : String
  name : String
  type : SkillType
  cd : Int
  weight : Int := 0
  damage_min : Int := 0
  damage_max : Int := 0
  status : Option String := none
  duration : Int := 0
  value : Int := 0
  chance : Frac := ⟨1, 1⟩
  shield_value : Int := 0
  deriving DecidableEq, Repr

/-- Status effect attached to a fighter, from models.StatusEffect. -/
structure StatusEffect where
  name : String
  duration : Int
  value : Int := 0
  deriving DecidableEq, Repr

/-- Fighter, from models.FighterState.  Cooldowns are an insertion-ordered
association list modelling the Python dict. -/
structure FighterState where
  name : String
  max_hp : Int := 1200
  hp : Int := 1200
  shield : Int := 0
  statuses : List StatusEffect := []
  cooldowns : List (String × Int) := []
  deriving DecidableEq, Repr

/-- Value stored in an event detail dict (Python Any: ints and strings). -/
inductive DVal
  | i : Int → DVal
  | s : String → DVal
  deriving DecidableEq, Repr

/-- Typed event appended to a round log, from models.Event. -/
structure Event where
  type : String
  actor : Option String := none
  target : Option String := none
  detail : List (String × DVal) := []
  deriving DecidableEq, Repr

/-- Round log, from models.BattleLog. -/
structure BattleLog where
  round_no : Int
  events : List Event := []
  deriving DecidableEq, Repr

/-- Battle, from models.BattleState.  The serialized PRNG token
rng_state_b64 is modelled as the base-256 digit list of the generator
state. -/
structure BattleState where
  user_id : Int
  player : FighterState
  ai : FighterState
  round_no : Int := 0
  is_over : Bool := false
  winner : Option String := none
  seed : Option Int := none
  rng_state_b64 : Option (List Nat) := none
  debug_mode : Bool := false
  player_a_id : Option Int := none
  player_b_id : Option Int := none
  pending_action : List (Int × Int) := []
  deriving DecidableEq, Repr

/-- Distinguished basic attack key, from engine.BASIC_ATTACK_KEY. -/
def BASIC_ATTACK_KEY : String := "basic_attack"

/-- Python dict get with default 0, used for cooldown lookups. -/
def cdGet : List (String × Int) → String → Int
  | [], _ => 0
  | (k, v) :: rest, key => if k = key then v else cdGet rest key

/-- Python dict item assignment: replace in place, else append. -/
def cdSet : List (String × Int) → String → Int → List (String × Int)
  | [], key, v => [(key, v)]
  | (k, w) :: rest, key, v =>
    if k = key then (key, v) :: rest else (k, w) :: cdSet rest key v

/-- Cooldown decrement pass of BattleEngine._on_turn_start: every positive
cooldown is decremented by one. -/
def cdDecAll (d : List (String × Int)) : List (String × Int) :=
  d.map (fun p => if p.2 > 0 then (p.1, p.2 - 1) else p)

/-- Skill catalog lookup (Python dict indexing, None on missing key). -/
def lookupSkill : List (String × Skill) → String → Option Skill
  | [], _ => none
  | (k, s) :: rest, key => if k = key then some s else lookupSkill rest key

/-- Pending-action membership test (Python: user_id in battle.pending_action). -/
def pendingContains : List (Int × Int) → Int → Bool
  | [], _ => false
  | (k, _) :: rest, key => if k = key then true else pendingContains rest key

/-- Pending-action lookup. -/
def pendingGet? : List (Int × Int) → Int → Option Int
  | [], _ => none
  | (k, v) :: rest, key => if k = key then some v else pendingGet? rest key

/-- Pending-action assignment: replace in place, else append. -/
def pendingSet : List (Int × Int) → Int → Int → List (Int × Int)
  | [], key, v => [(key, v)]
  | (k, w) :: rest, key, v =>
    if k = key then (key, v) :: rest else (k, w) :: pendingSet rest key v

/-- Modulus of the modelled linear congruential generator standing in for
random.Random. -/
def rngM : Nat := 2 ^ 31

/-- Modelled PRNG: the full internal state is one number below rngM. -/
structure Rng where
  state : Nat
  deriving DecidableEq, Repr

/-- One LCG step: output word and successor state. -/
def Rng.next (r : Rng) : Nat × Rng :=
  let s := (r.state * 1103515245 + 12345) % rngM
  (s, ⟨s⟩)

/-- Seeding, from random.Random(seed); an absent seed (entropy seeding in
Python) is modelled by a fixed default state. -/
def Rng.ofSeed : Option Int → Rng
  | some n => ⟨n.toNat % rngM⟩
  | none => ⟨0⟩

/-- Uniform integer draw on a closed range, from random.randint; an empty
range raises ValueError. -/
def randint (a b : Int) (r : Rng) : Except String (Int × Rng) :=
  if a > b then .error "ValueError: empty range for randrange"
  else
    let p := r.next
    .ok (a + (p.1 : Int) % (b - a + 1), p.2)

/-- Uniform draw in the unit interval, from random.random. -/
def randFloat (r : Rng) : Frac × Rng :=
  let p := r.next
  (⟨(p.1 : Int), (rngM : Int)⟩, p.2)

/-- Running cumulative sums, from itertools.accumulate inside
random.choices. -/
def cumFrom (acc : Int) : List Int → List Int
  | [] => []
  | w :: ws => (acc + w) :: cumFrom (acc + w) ws

/-- Index selection of random.choices with k = 1: one uniform draw scaled
by the total weight, located by bisection over cumulative weights (bounded
by the last index); a nonpositive total raises ValueError. -/
def choiceIdx (weights : List Int) (r : Rng) : Except String (Nat × Rng) :=
  let cum := cumFrom 0 weights
  let total := cum.getLastD 0
  if total ≤ 0 then .error "ValueError: Total of weights must be greater than zero"
  else
    let p := randFloat r
    let x : Frac := ⟨p.1.num * total, p.1.den⟩
    .ok ((cum.take (weights.length - 1)).countP (fun c => decide (c * x.den ≤ x.num)), p.2)

/-- Fuelled base-256 digit extraction; the fuel only bounds the recursion
depth and any fuel at least the digit count gives the full digit list. -/
def serializeNatAux : Nat → Nat → List Nat
  | 0, _ => []
  | fuel + 1, n => if n = 0 then [] else (n % 256) :: serializeNatAux fuel (n / 256)

/-- Base-256 little-endian digits of the PRNG state, modelling
base64.b64encode(pickle.dumps(rng.getstate())). -/
def serializeNat (n : Nat) : List Nat := serializeNatAux n n

/-- Inverse of serializeNat, modelling pickle.loads(base64.b64decode(tok)). -/
def deserializeNat : List Nat → Nat
  | [] => 0
  | d :: rest => d + 256 * deserializeNat rest

/-- Capture of the generator state onto the battle, from
BattleEngine._sync_rng_state. -/
def syncRngState (b : BattleState) (r : Rng) : BattleState :=
  { b with rng_state_b64 := some (serializeNat r.state) }

/-- Restore-or-seed of the per-battle generator, from BattleEngine.get_rng:
an existing token is deserialized; otherwise the generator is seeded from
the battle seed and its state immediately captured. -/
def getRng (b : BattleState) : Rng × BattleState :=
  match b.rng_state_b64 with
  | some tok => (⟨deserializeNat tok⟩, b)
  | none =>
    let r := Rng.ofSeed b.seed
    (r, syncRngState b r)

/-- One status's turn-start processing inside BattleEngine._on_turn_start:
the duration is pre-decremented, then the handler hook runs (only the
shield handler overrides it: on expiry it zeroes the fighter shield, emits
a shield_expire event and vetoes retention); the status is kept only when
the hook kept it and the decremented duration is still positive. -/
def turnStartStep (f : FighterState) (evs : List Event) (st : StatusEffect) :
    FighterState × List Event × Option StatusEffect :=
  let dec : StatusEffect := { st with duration := st.duration - 1 }
  if dec.name = "shield" then
    if dec.duration ≤ 0 then
      if f.shield > 0 then
        ({ f with shield := 0 },
         evs ++ [⟨"shield_expire", some f.name, none, []⟩], none)
      else (f, evs, none)
    else (f, evs, some dec)
  else if dec.duration > 0 then (f, evs, some dec)
  else (f, evs, none)

/-- Status iteration of BattleEngine._on_turn_start, in attachment order. -/
def turnStartStatuses (f : FighterState) (evs : List Event) :
    List StatusEffect → FighterState × List Event × List StatusEffect
  | [] => (f, evs, [])
  | st :: rest =>
    let step := turnStartStep f evs st
    let tail := turnStartStatuses step.1 step.2.1 rest
    (tail.1, tail.2.1, step.2.2.toList ++ tail.2.2)

/-- BattleEngine._on_turn_start: decrement positive cooldowns, then tick
statuses. -/
def onTurnStart (f : FighterState) (evs : List Event) : FighterState × List Event :=
  let f1 : FighterState := { f with cooldowns := cdDecAll f.cooldowns }
  let t := turnStartStatuses f1 evs f1.statuses
  ({ t.1 with statuses := t.2.2 }, t.2.1)

/-- Candidate list of BattleEngine._choose_skill: non-basic skills whose
cooldown for this fighter is zero, in catalog order. -/
def chooseCandidates (skills : List (String × Skill)) (f : FighterState) : List Skill :=
  (skills.filter (fun p =>
    decide (p.1 ≠ BASIC_ATTACK_KEY ∧ cdGet f.cooldowns p.1 = 0))).map (fun p => p.2)

/-- BattleEngine._choose_skill: weighted draw among off-cooldown non-basic
skills, falling back to the basic attack only when no candidate exists. -/
def chooseSkill (skills : List (String × Skill)) (f : FighterState) (r : Rng) :
    Except String (Skill × Rng) :=
  match chooseCandidates skills f with
  | [] =>
    match lookupSkill skills BASIC_ATTACK_KEY with
    | some sk => .ok (sk, r)
    | none => .error "KeyError: basic_attack"
  | c :: cs =>
    match choiceIdx ((c :: cs).map (fun sk => sk.weight)) r with
    | .error e => .error e
    | .ok (i, r1) => .ok ((c :: cs).getD i c, r1)

/-- First status whose on_before_action hook returns a skill override:
among the installed handlers only the silence handler does (it returns
the basic attack key, a truthy string). -/
def silenceOverride (f : FighterState) : Option StatusEffect :=
  f.statuses.find? (fun st => st.name == "silence")

/-- Skill resolution branch of BattleEngine._take_action: a truthy selected
key that is in the catalog and off cooldown is used directly; otherwise a
selected key equal to the basic attack key indexes the catalog (KeyError
when absent); otherwise fall back to the weighted draw. -/
def resolveSelected (skills : List (String × Skill)) (attacker : FighterState)
    (selected : Option String) (r : Rng) : Except String (Skill × Rng) :=
  match selected with
  | none => chooseSkill skills attacker r
  | some k =>
    if k = "" then chooseSkill skills attacker r
    else
      match lookupSkill skills k with
      | some sk =>
        if cdGet attacker.cooldowns k = 0 then .ok (sk, r)
        else if k = BASIC_ATTACK_KEY then .ok (sk, r)
        else chooseSkill skills attacker r
      | none =>
        if k = BASIC_ATTACK_KEY then
          match lookupSkill skills BASIC_ATTACK_KEY with
          | some b => .ok (b, r)
          | none => .error "KeyError: basic_attack"
        else chooseSkill skills attacker r

/-- BattleEngine._apply_status: a same-named status is replaced in place,
otherwise the new status is appended. -/
def applyStatusList : List StatusEffect → String → Int → Int → List StatusEffect
  | [], sname, dur, v => [⟨sname, dur, v⟩]
  | st :: rest, sname, dur, v =>
    if st.name = sname then ⟨sname, dur, v⟩ :: rest
    else st :: applyStatusList rest sname dur v

/-- Status loop of BattleEngine._apply_damage over (remaining damage,
current shield): the shield handler absorbs min(shield, remaining); the
poison and silence handlers pass damage through unchanged and unknown
names have no handler, so only shield-named statuses act. -/
def damageLoop : List StatusEffect → Int → Int → Int × Int
  | [], rem, sh => (rem, sh)
  | st :: rest, rem, sh =>
    if st.name = "shield" then
      damageLoop rest (rem - min sh rem) (sh - min sh rem)
    else damageLoop rest rem sh

/-- BattleEngine._apply_damage: run the status handlers, then clamp the
hit-point loss at zero and the hit points at zero; returns (hp_loss,
absorbed, updated fighter). -/
def applyDamage (f : FighterState) (damage : Int) : Int × Int × FighterState :=
  let lp := damageLoop f.statuses damage f.shield
  let hp_loss := max 0 lp.1
  (hp_loss, f.shield - lp.2,
   { f with shield := lp.2, hp := max 0 (f.hp - hp_loss) })

/-- BattleEngine._execute_skill: damage skills roll and apply damage;
status skills roll the chance and attach or miss (a missing status name is
an assertion failure); shield skills raise the attacker shield and attach
a shield status. -/
def executeSkill (attacker defender : FighterState) (sk : Skill) (r : Rng)
    (evs : List Event) :
    Except String (FighterState × FighterState × Rng × List Event) :=
  match sk.type with
  | .damage =>
    match randint sk.damage_min sk.damage_max r with
    | .error e => .error e
    | .ok (d, r1) =>
      let ad := applyDamage defender d
      .ok (attacker, ad.2.2, r1,
        evs ++ [⟨"damage", some attacker.name, some defender.name,
          [("damage", .i d), ("hp_loss", .i ad.1), ("shield_absorb", .i ad.2.1)]⟩])
  | .applyStatus =>
    let p := randFloat r
    if Frac.le p.1 sk.chance then
      match sk.status with
      | none => .error "AssertionError"
      | some sname =>
        .ok (attacker,
          { defender with
            statuses := applyStatusList defender.statuses sname sk.duration sk.value },
          p.2,
          evs ++ [⟨"status_apply", some attacker.name, some defender.name,
            [("status", .s sname), ("duration", .i sk.duration), ("value", .i sk.value)]⟩])
    else
      .ok (attacker, defender, p.2,
        evs ++ [⟨"miss", some attacker.name, some defender.name, []⟩])
  | .addShield =>
    let a1 : FighterState := { attacker with shield := attacker.shield + sk.shield_value }
    .ok ({ a1 with statuses := applyStatusList a1.statuses "shield" sk.duration 0 },
      defender, r,
      evs ++ [⟨"shield_gain", some attacker.name, none,
        [("shield_value", .i sk.shield_value), ("duration", .i sk.duration)]⟩])

/-- BattleEngine._take_action: a status override (silence) replaces the
forced key and logs a forced_basic_attack event; the selected skill is
resolved, logged as skill_use, executed, and a positive-cooldown non-basic
skill goes on cooldown afterwards. -/
def takeAction (skills : List (String × Skill)) (attacker defender : FighterState)
    (r : Rng) (evs : List Event) (forced : Option String) :
    Except String (FighterState × FighterState × Rng × List Event) :=
  let sel : Option String × List Event :=
    match silenceOverride attacker with
    | some st => (some BASIC_ATTACK_KEY,
        evs ++ [⟨"forced_basic_attack", some attacker.name, none,
          [("reason", .s st.name)]⟩])
    | none => (forced, evs)
  match resolveSelected skills attacker sel.1 r with
  | .error e => .error e
  | .ok (sk, r1) =>
    let evs2 := sel.2 ++ [⟨"skill_use", some attacker.name, none,
      [("skill_key", .s sk.key), ("skill_name", .s sk.name)]⟩]
    match executeSkill attacker defender sk r1 evs2 with
    | .error e => .error e
    | .ok (a1, d1, r2, evs3) =>
      if sk.cd > 0 ∧ sk.key ≠ BASIC_ATTACK_KEY then
        .ok ({ a1 with cooldowns := cdSet a1.cooldowns sk.key sk.cd }, d1, r2, evs3)
      else .ok (a1, d1, r2, evs3)

/-- Total end-of-round damage-over-time of BattleEngine._on_turn_end_dot:
only the poison handler contributes (its magnitude); silence and shield
contribute zero and unknown names are skipped. -/
def dotTotal : List StatusEffect → Int
  | [] => 0
  | st :: rest => (if st.name = "poison" then st.value else 0) + dotTotal rest

/-- BattleEngine._on_turn_end_dot: a positive DOT total is applied through
the damage path and logged as one dot event; otherwise nothing happens. -/
def onTurnEndDot (f : FighterState) (evs : List Event) : FighterState × List Event :=
  let dot := dotTotal f.statuses
  if dot ≤ 0 then (f, evs)
  else
    let ad := applyDamage f dot
    (ad.2.2, evs ++ [⟨"dot", some f.name, none,
      [("dot", .i dot), ("hp_loss", .i ad.1), ("shield_absorb", .i ad.2.1)]⟩])

/-- BattleEngine._check_winner: a fighter is down at nonpositive hit
points; one down fighter loses, two give a draw; a decided battle gets the
terminal flag, the winner and a battle_over event. -/
def checkWinner (b : BattleState) (evs : List Event) : BattleState × List Event × Bool :=
  let p_dead := b.player.hp ≤ 0
  let a_dead := b.ai.hp ≤ 0
  if ¬ p_dead ∧ ¬ a_dead then (b, evs, false)
  else
    let w := if p_dead ∧ a_dead then "平局" else if a_dead then "玩家" else "AI"
    ({ b with is_over := true, winner := some w },
     evs ++ [⟨"battle_over", none, none, [("winner", .s w)]⟩], true)

/-- BattleEngine.advance_round: an already-terminal battle yields only an
already_over marker; otherwise restore the generator, bump the round,
tick both fighters, run the player action then the ai action with win
checks after each, run the end-of-round DOT phase, final win check, and
capture the generator state. -/
def advanceRound (skills : List (String × Skill)) (b : BattleState)
    (forced_skill_player forced_skill_ai : Option String) :
    Except String (BattleState × BattleLog) :=
  if b.is_over then .ok (b, ⟨b.round_no, [⟨"already_over", none, none, []⟩]⟩)
  else
    let g := getRng b
    let b1 : BattleState := { g.2 with round_no := g.2.round_no + 1 }
    let evs0 : List Event := [⟨"round_start", none, none, [("round", .i b1.round_no)]⟩]
    let tp := onTurnStart b1.player evs0
    let ta := onTurnStart b1.ai tp.2
    let b2 : BattleState := { b1 with player := tp.1, ai := ta.1 }
    match takeAction skills b2.player b2.ai g.1 ta.2 forced_skill_player with
    | .error e => .error e
    | .ok (p2, a2, r1, evs3) =>
      let w1 := checkWinner { b2 with player := p2, ai := a2 } evs3
      if w1.2.2 then .ok (syncRngState w1.1 r1, ⟨w1.1.round_no, w1.2.1⟩)
      else
        match takeAction skills w1.1.ai w1.1.player r1 w1.2.1 forced_skill_ai with
        | .error e => .error e
        | .ok (a3, p3, r2, evs5) =>
          let w2 := checkWinner { w1.1 with player := p3, ai := a3 } evs5
          if w2.2.2 then .ok (syncRngState w2.1 r2, ⟨w2.1.round_no, w2.2.1⟩)
          else
            let dp := onTurnEndDot w2.1.player w2.2.1
            let da := onTurnEndDot w2.1.ai dp.2
            let w3 := checkWinner { w2.1 with player := dp.1, ai := da.1 } da.2
            .ok (syncRngState w3.1 r2, ⟨w3.1.round_no, w3.2.1⟩)

/-- Stable catalog ordinal order, from BattleEngine.skill_order. -/
def skillOrder (skills : List (String × Skill)) : List String :=
  skills.map (fun p => p.1)

/-- First index of a key in the order list (list.index, ValueError when
absent). -/
def indexOfKey : List String → String → Except String Nat
  | [], _ => .error "ValueError"
  | k :: rest, key =>
    if k = key then .ok 0 else (indexOfKey rest key).map (fun i => i + 1)

/-- BattleEngine.skill_key_to_number: 1-based ordinal of a key. -/
def skillKeyToNumber (skills : List (String × Skill)) (key : String) :
    Except String Int :=
  (indexOfKey (skillOrder skills) key).map (fun i => (i : Int) + 1)

/-- BattleEngine.skill_number_to_key: ordinal back to key, rejecting
out-of-range numbers. -/
def skillNumberToKey (skills : List (String × Skill)) (no : Int) :
    Except String String :=
  if no < 1 ∨ no > (skillOrder skills).length then .error "invalid skill number"
  else
    match (skillOrder skills).get? (no - 1).toNat with
    | some k => .ok k
    | none => .error "invalid skill number"

/-- BattleEngine.pick_locked_skill_number: restore the generator, run the
weighted draw, capture the generator, and return the chosen ordinal. -/
def pickLockedSkillNumber (skills : List (String × Skill)) (b : BattleState)
    (f : FighterState) : Except String (Int × BattleState) :=
  let g := getRng b
  match chooseSkill skills f g.1 with
  | .error e => .error e
  | .ok (sk, r1) =>
    let b2 := syncRngState g.2 r1
    match skillKeyToNumber skills sk.key with
    | .error e => .error e
    | .ok n => .ok (n, b2)

/-- Event detail lookup (Python dict indexing, KeyError when absent). -/
def detailGet : List (String × DVal) → String → Except String DVal
  | [], key => .error ("KeyError: " ++ key)
  | (k, v) :: rest, key => if k = key then .ok v else detailGet rest key

/-- Display form of a detail value (Python f-string interpolation). -/
def dvalStr : DVal → String
  | .i n => toString n
  | .s s => s

/-- Integer view of a detail value (Python comparison with an int raises
TypeError on a string). -/
def dvalInt : DVal → Except String Int
  | .i n => .ok n
  | .s _ => .error "TypeError"

/-- Role substitution of render.NAME_TO_ROLE.get(actor or "", actor or ""). -/
def roleOf (actor : Option String) : String :=
  let a := actor.getD ""
  if a = "玩家" then "你" else a

/-- engine.format_fighter_line: fighter HP line with shield and status
annotations. -/
def formatFighterLine (is_player : Bool) (f : FighterState) : String :=
  let pfx := if is_player then "你的狗命剩余" else "对方狗命剩余"
  let extras :=
    (if f.shield > 0 then ["护盾" ++ toString f.shield] else []) ++
    f.statuses.filterMap (fun st =>
      if st.name = "poison" then some ("中毒" ++ toString st.duration ++ "回合")
      else if st.name = "silence" then some ("沉默" ++ toString st.duration ++ "回合")
      else if st.name = "shield" then some ("盾效" ++ toString st.duration ++ "回合")
      else none)
  if extras ≠ [] then
    pfx ++ "：" ++ toString f.hp ++ "/" ++ toString f.max_hp ++ "（" ++
      String.intercalate "，" extras ++ "）"
  else pfx ++ "：" ++ toString f.hp ++ "/" ++ toString f.max_hp

/-- Per-event display lines of the main loop of render.render_battle_log
(dot events are handled by a dedicated section below it). -/
def renderEventLines (ev : Event) : Except String (List String) :=
  if ev.type = "round_start" then .ok []
  else if ev.type = "forced_basic_attack" then
    .ok [roleOf ev.actor ++ "受到沉默影响，只能使用【普攻】。"]
  else if ev.type = "skill_use" then do
    let v ← detailGet ev.detail "skill_name"
    .ok [roleOf ev.actor ++ "使用【" ++ dvalStr v ++ "】。"]
  else if ev.type = "damage" then do
    let tgt := if ev.target = some "AI" then "对方" else "你"
    let dmg ← detailGet ev.detail "damage"
    let absorb ← detailGet ev.detail "shield_absorb"
    let absorbI ← dvalInt absorb
    let hpl ← detailGet ev.detail "hp_loss"
    let mid := if absorbI > 0 then "（其中护盾吸收 " ++ dvalStr absorb ++ "）" else ""
    .ok ["造成 " ++ dvalStr dmg ++ " 伤害" ++ mid ++ "，" ++ tgt ++ "损失HP " ++
      dvalStr hpl ++ "。"]
  else if ev.type = "status_apply" then do
    let tgt := if ev.target = some "AI" then "对方" else "你"
    let st ← detailGet ev.detail "status"
    if dvalStr st = "poison" then do
      let dur ← detailGet ev.detail "duration"
      let v ← detailGet ev.detail "value"
      .ok [tgt ++ "进入中毒 " ++ dvalStr dur ++ " 回合（每回合" ++ dvalStr v ++ "DOT）。"]
    else if dvalStr st = "silence" then do
      let dur ← detailGet ev.detail "duration"
      .ok [tgt ++ "被沉默 " ++ dvalStr dur ++ " 回合。"]
    else .ok []
  else if ev.type = "miss" then .ok ["技能未命中。"]
  else if ev.type = "shield_gain" then do
    let sv ← detailGet ev.detail "shield_value"
    let dur ← detailGet ev.detail "duration"
    .ok [roleOf ev.actor ++ "获得护盾 " ++ dvalStr sv ++ "，持续 " ++ dvalStr dur ++ " 回合。"]
  else if ev.type = "shield_expire" then
    .ok [roleOf ev.actor ++ "的护盾持续结束，剩余护盾清零。"]
  else .ok []

/-- Main event loop of render.render_battle_log. -/
def renderLoop : List Event → Except String (List String)
  | [] => .ok []
  | ev :: rest => do
    let l ← renderEventLines ev
    let ls ← renderLoop rest
    .ok (l ++ ls)

/-- One line of the dot section of render.render_battle_log. -/
def renderDotLine (ev : Event) : Except String String := do
  let dot ← detailGet ev.detail "dot"
  let absorb ← detailGet ev.detail "shield_absorb"
  let absorbI ← dvalInt absorb
  let hpl ← detailGet ev.detail "hp_loss"
  let mid := if absorbI > 0 then "（护盾吸收 " ++ dvalStr absorb ++ "）" else ""
  .ok (roleOf ev.actor ++ "受到中毒DOT " ++ dvalStr dot ++ mid ++ "，损失HP " ++
    dvalStr hpl ++ "。")

/-- Dot section loop of render.render_battle_log. -/
def renderDotLoop : List Event → Except String (List String)
  | [] => .ok []
  | ev :: rest => do
    let l ← renderDotLine ev
    let ls ← renderDotLoop rest
    .ok (l :: ls)

/-- Trailing fighter lines of render._tail_lines. -/
def tailLines (b : BattleState) : List String :=
  [formatFighterLine true b.player, formatFighterLine false b.ai]

/-- render.render_battle_log: resolution report text for one round. -/
def renderBattleLog (b : BattleState) (log : BattleLog) : Except String String :=
  if log.events.any (fun ev => ev.type == "already_over") then
    .ok (String.intercalate "\n" (["本局已结束，请使用 /new 开启新战斗。"] ++ tailLines b))
  else do
    let body ← renderLoop log.events
    let dots := log.events.filter (fun ev => ev.type == "dot")
    let dotLines ←
      if dots = [] then .ok ["本回合无人中毒。"]
      else renderDotLoop dots
    let winLines :=
      if b.is_over then
        if b.winner = some "平局" then ["本局结束：同归于尽，平局！"]
        else if b.winner = some "玩家" then ["本局结束：你赢了，AI被你拿下！"]
        else ["本局结束：你倒下了，AI获胜。"]
      else []
    let debugLines :=
      match b.debug_mode, b.seed with
      | true, some sd => ["[debug] seed=" ++ toString sd]
      | _, _ => []
    .ok (String.intercalate "\n"
      (["=== 第 " ++ toString log.round_no ++ " 回合 ==="] ++ body ++
       ["-- 回合结束DOT结算 --"] ++ dotLines ++ tailLines b ++ winLines ++ debugLines))

/-- Result of a duel submission, from duel.SubmitActionResult. -/
structure SubmitActionResult where
  message : String
  round_report : Option String := none
  deriving DecidableEq, Repr

/-- Body of DuelService.submit_action after the slot-binding chain: reject
a duplicate submission, otherwise preview and record a skill for the
actor's fighter, and resolve the round once both pending entries exist. -/
def submitAfterBind (skills : List (String × Skill)) (b : BattleState)
    (user_id : Int) (mention_html : String) :
    Except String (SubmitActionResult × BattleState) :=
  if pendingContains b.pending_action user_id then
    .ok (⟨"你本回合已出招，等对方", none⟩, b)
  else
    let fighter := if b.player_a_id = some user_id then b.player else b.ai
    match pickLockedSkillNumber skills b fighter with
    | .error e => .error e
    | .ok (skill_no, b1) =>
      match skillNumberToKey skills skill_no with
      | .error e => .error e
      | .ok key =>
        match lookupSkill skills key with
        | none => .error ("KeyError: " ++ key)
        | some sk =>
          let b2 : BattleState :=
            { b1 with pending_action := pendingSet b1.pending_action user_id skill_no }
          let ack := "回合开始咯，请等待玩家响应~\n本轮" ++ mention_html ++ "要用" ++
            toString skill_no ++ "号" ++ sk.name
          match b2.player_a_id, b2.player_b_id with
          | some aid, some bid =>
            if ¬ pendingContains b2.pending_action aid ∨
               ¬ pendingContains b2.pending_action bid then
              .ok (⟨ack, none⟩, b2)
            else
              match pendingGet? b2.pending_action aid, pendingGet? b2.pending_action bid with
              | some na, some nb =>
                (match skillNumberToKey skills na with
                 | .error e => .error e
                 | .ok skill_a =>
                   match skillNumberToKey skills nb with
                   | .error e => .error e
                   | .ok skill_b =>
                     match advanceRound skills b2 (some skill_a) (some skill_b) with
                     | .error e => .error e
                     | .ok (b3, log) =>
                       let b4 : BattleState := { b3 with pending_action := [] }
                       match renderBattleLog b4 log with
                       | .error e => .error e
                       | .ok report => .ok (⟨ack, some report⟩, b4))
              | _, _ => .error "KeyError: pending_action"
          | _, _ => .ok (⟨ack, none⟩, b2)

/-- DuelService.submit_action: bind the actor to a free slot (first A,
then B), reject a third identity with a room-full message, then run the
post-binding body. -/
def submitAction (skills : List (String × Skill)) (b : BattleState)
    (user_id : Int) (mention_html : String) :
    Except String (SubmitActionResult × BattleState) :=
  if b.player_a_id = none then
    submitAfterBind skills { b with player_a_id := some user_id } user_id mention_html
  else if b.player_a_id ≠ some user_id ∧ b.player_b_id = none then
    submitAfterBind skills { b with player_b_id := some user_id } user_id mention_html
  else if b.player_a_id ≠ some user_id ∧ b.player_b_id ≠ some user_id then
    .ok (⟨"当前房间为双人对局，无法加入", none⟩, b)
  else
    submitAfterBind skills b user_id mention_html

/-- Resolution continued from a live in-memory generator: the body of
advanceRound with the generator passed in directly instead of being
restored from the serialized token.  Modelled from the spec sentence
comparing a restored-token run with continuing the original in-memory
generator without the round-trip. -/
def advanceRoundFromRng (skills : List (String × Skill)) (b : BattleState) (r0 : Rng)
    (forced_skill_player forced_skill_ai : Option String) :
    Except String (BattleState × BattleLog) :=
  if b.is_over then .ok (b, ⟨b.round_no, [⟨"already_over", none, none, []⟩]⟩)
  else
    let b1 : BattleState := { b with round_no := b.round_no + 1 }
    let evs0 : List Event := [⟨"round_start", none, none, [("round", .i b1.round_no)]⟩]
    let tp := onTurnStart b1.player evs0
    let ta := onTurnStart b1.ai tp.2
    let b2 : BattleState := { b1 with player := tp.1, ai := ta.1 }
    match takeAction skills b2.player b2.ai r0 ta.2 forced_skill_player with
    | .error e => .error e
    | .ok (p2, a2, r1, evs3) =>
      let w1 := checkWinner { b2 with player := p2, ai := a2 } evs3
      if w1.2.2 then .ok (syncRngState w1.1 r1, ⟨w1.1.round_no, w1.2.1⟩)
      else
        match takeAction skills w1.1.ai w1.1.player r1 w1.2.1 forced_skill_ai with
        | .error e => .error e
        | .ok (a3, p3, r2, evs5) =>
          let w2 := checkWinner { w1.1 with player := p3, ai := a3 } evs5
          if w2.2.2 then .ok (syncRngState w2.1 r2, ⟨w2.1.round_no, w2.2.1⟩)
          else
            let dp := onTurnEndDot w2.1.player w2.2.1
            let da := onTurnEndDot w2.1.ai dp.2
            let w3 := checkWinner { w2.1 with player := dp.1, ai := da.1 } da.2
            .ok (syncRngState w3.1 r2, ⟨w3.1.round_no, w3.2.1⟩)

/-- Concrete basic attack used by the example catalog. -/
def basicSkill : Skill :=
  { key := "basic_attack", name := "普攻", type := .damage, cd := 0,
    damage_min := 5, damage_max := 10 }

/-- Concrete damage skill used by the example catalog. -/
def heavySkill : Skill :=
  { key := "heavy_strike", name := "重击", type := .damage, cd := 2,
    weight := 3, damage_min := 20, damage_max := 30 }

/-- Concrete poison skill used by the example catalog. -/
def poisonSkill : Skill :=
  { key := "poison_dart", name := "毒镖", type := .applyStatus, cd := 3,
    weight := 2, status := some "poison", duration := 3, value := 45, chance := ⟨4, 5⟩ }

/-- Concrete shield skill used by the example catalog. -/
def guardSkill : Skill :=
  { key := "guard", name := "护盾", type := .addShield, cd := 4,
    weight := 1, duration := 2, shield_value := 50 }

/-- Example skill catalog in the shape of config/skills.json. -/
def exSkills : List (String × Skill) :=
  [("basic_attack", basicSkill), ("heavy_strike", heavySkill),
   ("poison_dart", poisonSkill), ("guard", guardSkill)]

/-- Fresh fighter with all example cooldowns at zero, as produced by
BattleEngine.create_new_battle. -/
def freshFighter (nm : String) : FighterState :=
  { name := nm,
    cooldowns := [("basic_attack", 0), ("heavy_strike", 0), ("poison_dart", 0), ("guard", 0)] }

/-- Fresh example battle. -/
def exBattle : BattleState :=
  { user_id := 1001, player := freshFighter "玩家", ai := freshFighter "AI", seed := some 123 }

/-- Example battle whose terminal flag is already set. -/
def overBattle : BattleState := { exBattle with is_over := true }

/-- Example battle whose player is silenced for two rounds. -/
def silBattle : BattleState :=
  { exBattle with player := { freshFighter "玩家" with statuses := [⟨"silence", 2, 0⟩] } }

/-- Example battle whose ai carries a one-round poison of magnitude 45. -/
def poi1Battle : BattleState :=
  { exBattle with ai := { freshFighter "AI" with statuses := [⟨"poison", 1, 45⟩] } }

/-- Basic attack that deals no damage, for the negative-shield catalog. -/
def basic0Skill : Skill :=
  { key := "basic_attack", name := "普攻", type := .damage, cd := 0,
    damage_min := 0, damage_max := 0 }

/-- Shield skill with a negative configured magnitude. -/
def drainSkill : Skill :=
  { key := "drain", name := "负盾", type := .addShield, cd := 0,
    weight := 1, duration := 2, shield_value := -5 }

/-- Catalog containing a negative-magnitude shield skill. -/
def negSkills : List (String × Skill) :=
  [("basic_attack", basic0Skill), ("drain", drainSkill)]

/-- Fresh fighter for the negative-shield catalog. -/
def negFighter (nm : String) : FighterState :=
  { name := nm, cooldowns := [("basic_attack", 0), ("drain", 0)] }

/-- Fresh battle for the negative-shield catalog. -/
def negBattle : BattleState :=
  { user_id := 1, player := negFighter "玩家", ai := negFighter "AI", seed := some 0 }

/-- Battle with a stale pending entry for an actor that is not bound to
either slot. -/
def staleBattle : BattleState := { negBattle with pending_action := [(7, 1)] }

/-- Non-basic skill with selection weight zero. -/
def zeroWSkill : Skill :=
  { key := "zero", name := "零权", type := .damage, cd := 1,
    weight := 0, damage_min := 1, damage_max := 2 }

/-- Catalog whose only non-basic skill has weight zero. -/
def zwSkills : List (String × Skill) :=
  [("basic_attack", basicSkill), ("zero", zeroWSkill)]

/-- Fighter with both zero-weight-catalog cooldowns at zero. -/
def zwFighter : FighterState :=
  { name := "玩家", cooldowns := [("basic_attack", 0), ("zero", 0)] }

/-- Fighter holding shield points together with an active shield status. -/
def shieldedFighter : FighterState :=
  { name := "玩家", shield := 100, statuses := [⟨"shield", 2, 0⟩],
    cooldowns := [("basic_attack", 0)] }

/-- Fighter holding shield points without any shield status. -/
def bareShieldFighter : FighterState :=
  { name := "玩家", shield := 100, statuses := [⟨"poison", 3, 10⟩],
    cooldowns := [("basic_attack", 0)] }

/-- Battle with both slots bound to distinct identities. -/
def fullBattle : BattleState :=
  { exBattle with player_a_id := some 1, player_b_id := some 2 }

/-- Battle where actor 7 is bound to slot A and already has a pending
entry. -/
def actedBattle : BattleState :=
  { exBattle with player_a_id := some 7, pending_action := [(7, 1)] }

/-- Result of the first example submission. -/
def c4r1 : SubmitActionResult :=
  ⟨"回合开始咯，请等待玩家响应~\n本轮@u1要用2号重击", none⟩

/-- Battle after the first example submission. -/
def c4b1 : BattleState :=
  { exBattle with
      player_a_id := some 1,
      rng_state_b64 := some [152, 222, 71, 26],
      pending_action := [(1, 2)] }

/-- Result of the second example submission. -/
def c4r2 : SubmitActionResult :=
  match submitAction exSkills c4b1 2 "@u2" with
  | .ok p => p.1
  | .error _ => ⟨"", none⟩

/-- Battle after the second example submission. -/
def c4b2 : BattleState :=
  match submitAction exSkills c4b1 2 "@u2" with
  | .ok p => p.2
  | .error _ => c4b1

/-- The poison-named entries of a status list, in order. -/
def poisonFilter (sts : List StatusEffect) : List StatusEffect :=
  sts.filter (fun st => st.name == "poison")

/-- The fighter bound to a role: the player role acts first, the ai role
second. -/
def roleFighter (b : BattleState) (isPlayer : Bool) : FighterState :=
  if isPlayer then b.player else b.ai

/-- One concrete resolved round on the example battle with both skills
forced to the basic attack. -/
def c8run : Except String (BattleState × BattleLog) :=
  advanceRound exSkills exBattle (some "basic_attack") (some "basic_attack")

/-- Battle resulting from the concrete example round. -/
def c8b : BattleState :=
  match c8run with
  | .ok p => p.1
  | .error _ => exBattle

/-- Log resulting from the concrete example round. -/
def c8log : BattleLog :=
  match c8run with
  | .ok p => p.2
  | .error _ => ⟨0, []⟩

/-- Battle whose ai fighter carries a three-round poison of magnitude 45,
under the poison-free negative-shield catalog. -/
def c2Battle : BattleState :=
  { user_id := 1, player := negFighter "玩家",
    ai := { negFighter "AI" with statuses := [⟨"poison", 3, 45⟩] }, seed := some 0 }

/-- One concrete resolved round on the poisoned example battle. -/
def c2run : Except String (BattleState × BattleLog) :=
  advanceRound negSkills c2Battle (some "basic_attack") (some "basic_attack")

/-- Battle resulting from the poisoned example round. -/
def c2b : BattleState :=
  match c2run with
  | .ok p => p.1
  | .error _ => c2Battle

/-- Log resulting from the poisoned example round. -/
def c2log : BattleLog :=
  match c2run with
  | .ok p => p.2
  | .error _ => ⟨0, []⟩

/-- Result of the first submission on the silenced example battle. -/
def c1r1 : SubmitActionResult :=
  match submitAction exSkills silBattle 1 "@u1" with
  | .ok p => p.1
  | .error _ => ⟨"", none⟩

/-- Battle after the first submission on the silenced example battle. -/
def c1b1 : BattleState :=
  match submitAction exSkills silBattle 1 "@u1" with
  | .ok p => p.2
  | .error _ => silBattle

/-!  Theorems.  -/

/-- A freshly recorded pending key is contained. -/
theorem pendingContains_set_self (d : List (Int × Int)) (k n : Int) :
    pendingContains (pendingSet d k n) k = true := by
  induction d with
  | nil => simp [pendingSet, pendingContains]
  | cons p rest ih =>
    by_cases h : p.1 = k <;>
      simp [pendingSet, pendingContains, h, ih]

/-- Recording a pending entry leaves other keys' membership unchanged. -/
theorem pendingContains_set_other (d : List (Int × Int)) (k n k2 : Int)
    (hne : k2 ≠ k) :
    pendingContains (pendingSet d k n) k2 = pendingContains d k2 := by
  induction d with
  | nil => simp [pendingSet, pendingContains, Ne.symm hne]
  | cons p rest ih =>
    by_cases h : p.1 = k
    · simp [pendingSet, pendingContains, h, Ne.symm hne]
    · simp [pendingSet, pendingContains, h, ih]

/-- A freshly recorded pending entry is retrieved. -/
theorem pendingGet?_set_self (d : List (Int × Int)) (k n : Int) :
    pendingGet? (pendingSet d k n) k = some n := by
  induction d with
  | nil => simp [pendingSet, pendingGet?]
  | cons p rest ih =>
    by_cases h : p.1 = k <;>
      simp [pendingSet, pendingGet?, h, ih]

/-- Recording a pending entry leaves other keys' lookups unchanged. -/
theorem pendingGet?_set_other (d : List (Int × Int)) (k n k2 : Int)
    (hne : k2 ≠ k) :
    pendingGet? (pendingSet d k n) k2 = pendingGet? d k2 := by
  induction d with
  | nil => simp [pendingSet, pendingGet?, Ne.symm hne]
  | cons p rest ih =>
    by_cases h : p.1 = k
    · simp [pendingSet, pendingGet?, h, Ne.symm hne]
    · simp [pendingSet, pendingGet?, h, ih]

/-- A contained pending key has a retrievable entry. -/
theorem pendingContains_get? (d : List (Int × Int)) (k : Int)
    (h : pendingContains d k = true) : ∃ n, pendingGet? d k = some n := by
  induction d with
  | nil => simp [pendingContains] at h
  | cons p rest ih =>
    by_cases hp : p.1 = k
    · exact ⟨p.2, by simp [pendingGet?, hp]⟩
    · rw [pendingContains, if_neg hp] at h
      obtain ⟨n, hn⟩ := ih h
      exact ⟨n, by simp [pendingGet?, hp, hn]⟩

/-- Acquiring the generator changes at most the serialized token on the
battle. -/
theorem getRng_snd_shape (b : BattleState) :
    ∃ o, (getRng b).2 = { b with rng_state_b64 := o } := by
  unfold getRng
  cases hrb : b.rng_state_b64 with
  | none => exact ⟨some (serializeNat (Rng.ofSeed b.seed).state), rfl⟩
  | some tok =>
    refine ⟨some tok, ?_⟩
    cases b
    simp_all

/-- The preview draw changes at most the serialized token on the battle. -/
theorem pickLocked_state (skills : List (String × Skill)) (b : BattleState)
    (f : FighterState) (n : Int) (b2 : BattleState)
    (h : pickLockedSkillNumber skills b f = .ok (n, b2)) :
    ∃ tok, b2 = { b with rng_state_b64 := some tok } := by
  obtain ⟨o, ho⟩ := getRng_snd_shape b
  unfold pickLockedSkillNumber at h
  simp only [ho] at h
  cases hcs : chooseSkill skills f (getRng b).1 with
  | error e => simp only [hcs] at h; cases h
  | ok p =>
    obtain ⟨sk, r1⟩ := p
    simp only [hcs] at h
    cases hkn : skillKeyToNumber skills sk.key with
    | error e => simp only [hkn] at h; cases h
    | ok m =>
      simp only [hkn, Except.ok.injEq, Prod.mk.injEq] at h
      obtain ⟨h1, h2⟩ := h
      exact ⟨serializeNat r1.state, h2.symm⟩

/-- Win detection never changes the round counter. -/
theorem checkWinner_round_no (b : BattleState) (evs : List Event) :
    (checkWinner b evs).1.round_no = b.round_no := by
  simp only [checkWinner]
  split <;> rfl

/-- Win detection never changes the serialized-token-free identity
fields either. -/
theorem checkWinner_pending (b : BattleState) (evs : List Event) :
    (checkWinner b evs).1.pending_action = b.pending_action := by
  simp only [checkWinner]
  split <;> rfl

/-- Resolving a non-terminal round increments the round counter by
exactly one. -/
theorem advanceRound_round_no (skills : List (String × Skill)) (b : BattleState)
    (fp fa : Option String) (b3 : BattleState) (log : BattleLog)
    (hov : b.is_over = false)
    (h : advanceRound skills b fp fa = .ok (b3, log)) :
    b3.round_no = b.round_no + 1 := by
  obtain ⟨o, ho⟩ := getRng_snd_shape b
  unfold advanceRound at h
  simp only [hov, Bool.false_eq_true, if_false, ho] at h
  split at h
  · cases h
  · split at h
    · simp only [Except.ok.injEq, Prod.mk.injEq] at h
      obtain ⟨h1, _⟩ := h
      subst h1
      simp [syncRngState, checkWinner_round_no]
    · split at h
      · cases h
      · split at h
        · simp only [Except.ok.injEq, Prod.mk.injEq] at h
          obtain ⟨h1, _⟩ := h
          subst h1
          simp [syncRngState, checkWinner_round_no]
        · simp only [Except.ok.injEq, Prod.mk.injEq] at h
          obtain ⟨h1, _⟩ := h
          subst h1
          simp [syncRngState, checkWinner_round_no]

/-- Digit extraction with sufficient fuel round-trips through
deserializeNat. -/
theorem serializeNatAux_roundtrip :
    ∀ fuel n, n ≤ fuel → deserializeNat (serializeNatAux fuel n) = n := by
  intro fuel
  induction fuel with
  | zero =>
    intro n hn
    interval_cases n
    rfl
  | succ fuel ih =>
    intro n hn
    by_cases h : n = 0
    · simp [serializeNatAux, h, deserializeNat]
    · rw [serializeNatAux, if_neg h, deserializeNat,
        ih (n / 256) (by omega)]
      omega

/-- Serialization of the generator state round-trips. -/
theorem deserialize_serialize (n : Nat) : deserializeNat (serializeNat n) = n :=
  serializeNatAux_roundtrip n n le_rfl

/-- Restoring the generator from a freshly captured token yields the
captured generator and leaves the battle untouched. -/
theorem getRng_sync (b : BattleState) (r : Rng) :
    getRng (syncRngState b r) = (r, syncRngState b r) := by
  show (({ state := deserializeNat (serializeNat r.state) } : Rng), _) = _
  rw [deserialize_serialize]

/-- C3: resolving a round after capturing the PRNG state and restoring it
from the serialized token consumes the same draws and produces the same
resulting battle state and log as continuing the original in-memory
generator without the round-trip. -/
theorem advanceRound_restore_equals_continue (skills : List (String × Skill))
    (b : BattleState) (r : Rng) (fp fa : Option String) :
    advanceRound skills (syncRngState b r) fp fa =
      advanceRoundFromRng skills (syncRngState b r) r fp fa := by
  unfold advanceRound advanceRoundFromRng
  rw [getRng_sync]

/-- Shape of an accepted submission whose partner slot is still empty: an
acknowledgement without report, and the battle gains only a fresh
serialized token and the recorded pending entry. -/
theorem submitAfterBind_first (skills : List (String × Skill)) (b : BattleState)
    (u : Int) (m : String) (res : SubmitActionResult) (bRes : BattleState)
    (hpend : pendingContains b.pending_action u = false)
    (hb : b.player_b_id = none)
    (h : submitAfterBind skills b u m = .ok (res, bRes)) :
    res.round_report = none ∧
    ∃ n tok, bRes =
      { b with
          rng_state_b64 := some tok,
          pending_action := pendingSet b.pending_action u n } := by
  unfold submitAfterBind at h
  simp only [hpend, Bool.false_eq_true, if_false] at h
  split at h
  · cases h
  case _ n b1 hpick =>
    obtain ⟨tok, htok⟩ := pickLocked_state _ _ _ _ _ hpick
    subst htok
    split at h
    · cases h
    case _ key hkey =>
      split at h
      · cases h
      case _ sk hlk =>
        have hproj : ({ b with
            rng_state_b64 := some tok,
            pending_action := pendingSet b.pending_action u n } :
          BattleState).player_b_id = b.player_b_id := rfl
        rw [hproj, hb] at h
        split at h
        case _ aid bid heq1 heq2 => cases heq2
        case _ hno =>
          simp only [Except.ok.injEq, Prod.mk.injEq] at h
          obtain ⟨h1, h2⟩ := h
          subst h1
          refine ⟨rfl, n, tok, ?_⟩
          rw [hb]
          exact h2.symm

/-- Shape of an accepted submission that fills the second pending slot of
a non-terminal battle: the result carries a round report and the round
counter advances by exactly one. -/
theorem submitAfterBind_second (skills : List (String × Skill)) (b : BattleState)
    (v au : Int) (m : String) (res : SubmitActionResult) (bRes : BattleState)
    (hov : b.is_over = false)
    (hpend : pendingContains b.pending_action v = false)
    (ha : b.player_a_id = some au) (hbv : b.player_b_id = some v)
    (hne : au ≠ v)
    (hain : pendingContains b.pending_action au = true)
    (h : submitAfterBind skills b v m = .ok (res, bRes)) :
    res.round_report ≠ none ∧ bRes.round_no = b.round_no + 1 := by
  unfold submitAfterBind at h
  simp only [hpend, Bool.false_eq_true, if_false] at h
  split at h
  · cases h
  case _ n b1 hpick =>
    obtain ⟨tok, htok⟩ := pickLocked_state _ _ _ _ _ hpick
    subst htok
    split at h
    · cases h
    case _ key hkey =>
      split at h
      · cases h
      case _ sk hlk =>
        have hpa : ({ b with
            rng_state_b64 := some tok,
            pending_action := pendingSet b.pending_action v n } :
          BattleState).player_a_id = b.player_a_id := rfl
        have hpb : ({ b with
            rng_state_b64 := some tok,
            pending_action := pendingSet b.pending_action v n } :
          BattleState).player_b_id = b.player_b_id := rfl
        rw [hpa, hpb, ha, hbv] at h
        have hx : pendingContains (pendingSet b.pending_action v n) au = true := by
          rw [pendingContains_set_other _ _ _ _ hne, hain]
        have hy : pendingContains (pendingSet b.pending_action v n) v = true :=
          pendingContains_set_self _ _ _
        obtain ⟨na, hna⟩ := pendingContains_get? _ _ hain
        have hga : pendingGet? (pendingSet b.pending_action v n) au = some na := by
          rw [pendingGet?_set_other _ _ _ _ hne, hna]
        have hgv : pendingGet? (pendingSet b.pending_action v n) v = some n :=
          pendingGet?_set_self _ _ _
        simp only [hx, hy, hga, hgv, not_true, or_self, if_false] at h
        split at h
        · cases h
        case _ ka hka =>
          split at h
          · cases h
          case _ kb hkb =>
            split at h
            · cases h
            case _ b3 log hadv =>
              split at h
              · cases h
              case _ rep hrep =>
                simp only [Except.ok.injEq, Prod.mk.injEq] at h
                obtain ⟨h1, h2⟩ := h
                subst h1
                refine ⟨by simp, ?_⟩
                rw [← h2]
                show b3.round_no = b.round_no + 1
                have := advanceRound_round_no skills _ (some ka) (some kb) b3 log
                  (by rw [show ({ b with
                    rng_state_b64 := some tok, player_a_id := some au,
                    player_b_id := some v,
                    pending_action := pendingSet b.pending_action v n } :
                    BattleState).is_over = b.is_over from rfl]; exact hov) hadv
                rw [this]

/-- C4 (amended): on a non-terminal battle with no bound identities and no
stale pending entries for either actor, of two accepted submissions from
distinct actors the first returns no round report, the second returns a
round report, and the round counter after the second is exactly one
greater than before it. -/
theorem submitAction_second_resolves (skills : List (String × Skill))
    (b : BattleState) (u v : Int) (m1 m2 : String)
    (r1 : SubmitActionResult) (b1 : BattleState)
    (r2 : SubmitActionResult) (b2 : BattleState)
    (huv : u ≠ v)
    (ha : b.player_a_id = none) (hb : b.player_b_id = none)
    (hov : b.is_over = false)
    (hpu : pendingContains b.pending_action u = false)
    (hpv : pendingContains b.pending_action v = false)
    (h1 : submitAction skills b u m1 = .ok (r1, b1))
    (h2 : submitAction skills b1 v m2 = .ok (r2, b2)) :
    r1.round_report = none ∧ r2.round_report ≠ none ∧
    b2.round_no = b.round_no + 1 := by
  unfold submitAction at h1
  rw [if_pos ha] at h1
  obtain ⟨hr1, n1, tok1, hb1⟩ :=
    submitAfterBind_first skills { b with player_a_id := some u } u m1 r1 b1
      hpu hb h1
  subst hb1
  refine ⟨hr1, ?_⟩
  unfold submitAction at h2
  rw [if_neg (by simp)] at h2
  rw [if_pos ⟨by simp [Option.some.injEq, huv], hb⟩] at h2
  obtain ⟨hr2, hrn⟩ :=
    submitAfterBind_second skills
      { b with
          player_a_id := some u,
          player_b_id := some v,
          rng_state_b64 := some tok1,
          pending_action := pendingSet b.pending_action u n1 }
      v u m2 r2 b2 hov
      (by show pendingContains (pendingSet b.pending_action u n1) v = false
          rw [pendingContains_set_other _ _ _ _ (Ne.symm huv), hpv])
      rfl rfl huv
      (by show pendingContains (pendingSet b.pending_action u n1) u = true
          exact pendingContains_set_self _ _ _)
      h2
  exact ⟨hr2, hrn⟩

/-- Witness instantiating submitAction_second_resolves on a fresh example
battle with actors 1 and 2. -/
theorem submitAction_second_resolves_witness :
    (1 : Int) ≠ 2 ∧ exBattle.player_a_id = none ∧ exBattle.is_over = false ∧
    submitAction exSkills exBattle 1 "@u1" = .ok (c4r1, c4b1) ∧
    submitAction exSkills c4b1 2 "@u2" = .ok (c4r2, c4b2) ∧
    (c4r1.round_report = none ∧ c4r2.round_report ≠ none ∧
     c4b2.round_no = exBattle.round_no + 1) :=
  ⟨by decide, rfl, rfl, by decide, by decide,
   submitAction_second_resolves exSkills exBattle 1 2 "@u1" "@u2" c4r1 c4b1 c4r2 c4b2
     (by decide) rfl rfl rfl rfl rfl (by decide) (by decide)⟩

/-- Counterexample to C4 as stated: on a battle with no bound identities
whose terminal flag is set, the second submission still returns a round
report but the round counter does not increase. -/
theorem submitAction_terminal_empty_room :
    overBattle.player_a_id = none ∧ overBattle.player_b_id = none ∧
    overBattle.round_no = 0 ∧
    (do
      let p1 ← submitAction exSkills overBattle 1 "@u1"
      let p2 ← submitAction exSkills p1.2 2 "@u2"
      pure (p1.1.round_report, p2.1.round_report.isSome, p2.2.round_no) :
      Except String (Option String × Bool × Int)) = .ok (none, true, 0) :=
  ⟨rfl, rfl, rfl, by decide⟩

/-- C7 (amended): a room-full rejection from a third identity, and an
already-acted rejection from an actor already bound to a slot, return
their fixed messages with no round report and leave the battle state
completely unchanged, so no random draw is consumed; an unbound actor
carrying a stale pending entry is bound to a free slot before the
already-acted rejection, so that case needs the actor to be bound. -/
theorem submitAction_reject_no_mutation (skills : List (String × Skill))
    (b : BattleState) (u : Int) (mh : String) :
    ((∃ x, b.player_a_id = some x ∧ x ≠ u) → (∃ y, b.player_b_id = some y ∧ y ≠ u) →
      submitAction skills b u mh = .ok (⟨"当前房间为双人对局，无法加入", none⟩, b)) ∧
    ((b.player_a_id = some u ∨
      ((∃ x, b.player_a_id = some x ∧ x ≠ u) ∧ b.player_b_id = some u)) →
      pendingContains b.pending_action u = true →
      submitAction skills b u mh = .ok (⟨"你本回合已出招，等对方", none⟩, b)) := by
  constructor
  · rintro ⟨x, hax, hxu⟩ ⟨y, hby, hyu⟩
    unfold submitAction
    rw [if_neg (by simp [hax]), if_neg (by simp [hby]),
      if_pos ⟨by simp [hax, hxu], by simp [hby, hyu]⟩]
  · rintro (hau | ⟨⟨x, hax, hxu⟩, hbu⟩) hpend
    · unfold submitAction
      rw [if_neg (by simp [hau]), if_neg (by simp [hau]),
        if_neg (by simp [hau])]
      unfold submitAfterBind
      rw [if_pos hpend]
    · unfold submitAction
      rw [if_neg (by simp [hax]), if_neg (by simp [hbu]),
        if_neg (by simp [hbu])]
      unfold submitAfterBind
      rw [if_pos hpend]

/-- Witness instantiating submitAction_reject_no_mutation on a full room
with a third actor and on a bound actor with a pending entry. -/
theorem submitAction_reject_no_mutation_witness :
    (fullBattle.player_a_id = some 1 ∧ fullBattle.player_b_id = some 2 ∧
     submitAction exSkills fullBattle 3 "@u3" =
       .ok (⟨"当前房间为双人对局，无法加入", none⟩, fullBattle)) ∧
    (actedBattle.player_a_id = some 7 ∧
     pendingContains actedBattle.pending_action 7 = true ∧
     submitAction exSkills actedBattle 7 "@u7" =
       .ok (⟨"你本回合已出招，等对方", none⟩, actedBattle)) :=
  ⟨⟨rfl, rfl,
    (submitAction_reject_no_mutation exSkills fullBattle 3 "@u3").1
      ⟨1, rfl, by decide⟩ ⟨2, rfl, by decide⟩⟩,
   ⟨rfl, rfl,
    (submitAction_reject_no_mutation exSkills actedBattle 7 "@u7").2
      (Or.inl rfl) rfl⟩⟩

/-- Counterexample to C7 as stated: an actor with a stale pending entry
but no slot binding receives the already-acted rejection, yet the
submission mutates the battle by binding the actor to the free A slot. -/
theorem submitAction_stale_pending_mutates :
    staleBattle.player_a_id = none ∧
    pendingContains staleBattle.pending_action 7 = true ∧
    (submitAction negSkills staleBattle 7 "@u7").map
        (fun p => (p.1.message, p.1.round_report, p.2.player_a_id)) =
      .ok ("你本回合已出招，等对方", none, some 7) :=
  ⟨rfl, rfl, by decide⟩

/-- C5: resolution on an already-terminal battle returns a log holding
exactly the already_over marker and the battle state completely
unchanged. -/
theorem advanceRound_terminal_noop (skills : List (String × Skill)) (b : BattleState)
    (fp fa : Option String) (h : b.is_over = true) :
    advanceRound skills b fp fa =
      .ok (b, ⟨b.round_no, [⟨"already_over", none, none, []⟩]⟩) := by
  simp [advanceRound, h]

/-- Witness instantiating advanceRound_terminal_noop on a concrete
terminal battle. -/
theorem advanceRound_terminal_noop_witness :
    overBattle.is_over = true ∧
    advanceRound exSkills overBattle none none =
      .ok (overBattle, ⟨overBattle.round_no, [⟨"already_over", none, none, []⟩]⟩) :=
  ⟨rfl, advanceRound_terminal_noop exSkills overBattle none none rfl⟩

/-- Damage applied at zero shield passes through every handler unchanged. -/
theorem damageLoop_shield_zero (sts : List StatusEffect) (rem : Int) (h : 0 ≤ rem) :
    damageLoop sts rem 0 = (rem, 0) := by
  induction sts with
  | nil => rfl
  | cons st rest ih =>
    by_cases hs : st.name = "shield" <;>
      simp [damageLoop, hs, min_eq_left h, ih]

/-- With a shield status present and damage exceeding the shield, the
handler loop absorbs exactly the shield. -/
theorem damageLoop_with_shield :
    ∀ (sts : List StatusEffect) (rem sh : Int),
      (∃ st ∈ sts, st.name = "shield") → sh < rem →
      damageLoop sts rem sh = (rem - sh, 0) := by
  intro sts
  induction sts with
  | nil => simp
  | cons st rest ih =>
    intro rem sh hmem hlt
    by_cases hs : st.name = "shield"
    · rw [damageLoop, if_pos hs, min_eq_left (le_of_lt hlt), sub_self]
      exact damageLoop_shield_zero rest (rem - sh) (by omega)
    · rw [damageLoop, if_neg hs]
      obtain ⟨st2, hst2, hname⟩ := hmem
      rcases List.mem_cons.mp hst2 with h1 | h1
      · exact absurd (h1 ▸ hname) hs
      · exact ih rem sh ⟨st2, h1, hname⟩ hlt

/-- Without any shield-named status the handler loop is the identity. -/
theorem damageLoop_no_shield :
    ∀ (sts : List StatusEffect) (rem sh : Int),
      (∀ st ∈ sts, st.name ≠ "shield") → damageLoop sts rem sh = (rem, sh) := by
  intro sts
  induction sts with
  | nil => intro rem sh _; rfl
  | cons st rest ih =>
    intro rem sh hnone
    rw [damageLoop, if_neg (hnone st (List.mem_cons_self st rest))]
    exact ih rem sh (fun s hs => hnone s (List.mem_cons_of_mem st hs))

/-- C6: a fighter holding shield points S with an active shield status hit
by damage D exceeding S absorbs exactly S, suffers hit-point loss exactly
D minus S, and ends with zero shield. -/
theorem applyDamage_shield_absorbs (f : FighterState) (S D : Int)
    (hS : f.shield = S) (hpos : 0 < S)
    (hmem : ∃ st ∈ f.statuses, st.name = "shield") (hD : S < D) :
    applyDamage f D =
      (D - S, S, { f with shield := 0, hp := max 0 (f.hp - (D - S)) }) := by
  have hdl : damageLoop f.statuses D f.shield = (D - S, 0) := by
    rw [hS]; exact damageLoop_with_shield f.statuses D S hmem hD
  unfold applyDamage
  rw [hdl]
  simp only [sub_zero, hS]
  rw [max_eq_right (by omega : (0 : Int) ≤ D - S)]

/-- Witness instantiating applyDamage_shield_absorbs on a fighter with
shield 100 hit for 130. -/
theorem applyDamage_shield_absorbs_witness :
    shieldedFighter.shield = 100 ∧ (0 : Int) < 100 ∧ (100 : Int) < 130 ∧
    applyDamage shieldedFighter 130 =
      (30, 100, { shieldedFighter with shield := 0, hp := max 0 (shieldedFighter.hp - 30) }) := by
  refine ⟨rfl, by decide, by decide, ?_⟩
  exact applyDamage_shield_absorbs shieldedFighter 100 130 rfl (by decide)
    ⟨⟨"shield", 2, 0⟩, by decide, rfl⟩ (by decide)

/-- C10: a fighter holding shield points but no shield status absorbs
nothing: the shield is unchanged and the full damage lands on hit points,
clamped at zero. -/
theorem applyDamage_without_shield_status (f : FighterState) (S D : Int)
    (hS : f.shield = S) (hpos : 0 < S) (hD : 0 ≤ D)
    (hnone : ∀ st ∈ f.statuses, st.name ≠ "shield") :
    applyDamage f D = (D, 0, { f with hp := max 0 (f.hp - D) }) := by
  unfold applyDamage
  rw [damageLoop_no_shield f.statuses D f.shield hnone]
  simp only [sub_self]
  rw [max_eq_right hD]

/-- Witness instantiating applyDamage_without_shield_status on a fighter
with shield 100 but only a poison status, hit for 130. -/
theorem applyDamage_without_shield_status_witness :
    bareShieldFighter.shield = 100 ∧ (0 : Int) < 100 ∧ (0 : Int) ≤ 130 ∧
    applyDamage bareShieldFighter 130 =
      (130, 0, { bareShieldFighter with hp := max 0 (bareShieldFighter.hp - 130) }) := by
  refine ⟨rfl, by decide, by decide, ?_⟩
  exact applyDamage_without_shield_status bareShieldFighter 100 130 rfl (by decide)
    (by decide) (by decide)

/-- The shield handler loop never drives the shield negative. -/
theorem damageLoop_shield_nonneg :
    ∀ (sts : List StatusEffect) (rem sh : Int),
      0 ≤ sh → 0 ≤ (damageLoop sts rem sh).2 := by
  intro sts
  induction sts with
  | nil => intro rem sh h; exact h
  | cons st rest ih =>
    intro rem sh h
    rw [damageLoop]
    by_cases hs : st.name = "shield"
    · rw [if_pos hs]
      exact ih _ _ (by
        have := min_le_left sh rem
        omega)
    · rw [if_neg hs]
      exact ih _ _ h

/-- Damage application keeps hit points and shield nonnegative. -/
theorem applyDamage_nonneg (f : FighterState) (d : Int)
    (hs : 0 ≤ f.shield) :
    0 ≤ (applyDamage f d).2.2.hp ∧ 0 ≤ (applyDamage f d).2.2.shield := by
  unfold applyDamage
  exact ⟨le_max_left 0 _, damageLoop_shield_nonneg f.statuses d f.shield hs⟩

/-- The turn-start status pass keeps the shield nonnegative and never
touches hit points. -/
theorem turnStartStatuses_nonneg :
    ∀ (sts : List StatusEffect) (f : FighterState) (evs : List Event),
      0 ≤ f.shield →
      0 ≤ (turnStartStatuses f evs sts).1.shield ∧
      (turnStartStatuses f evs sts).1.hp = f.hp := by
  intro sts
  induction sts with
  | nil => intro f evs hs; exact ⟨hs, rfl⟩
  | cons st rest ih =>
    intro f evs hs
    rw [turnStartStatuses]
    unfold turnStartStep
    by_cases hn : st.name = "shield"
    · by_cases hd : st.duration - 1 ≤ 0
      · by_cases hp : f.shield > 0
        · simp only [hn, hd, hp, if_true, if_pos]
          exact ih _ _ (by norm_num)
        · simp only [hn, hd, hp, if_true, if_pos, if_neg hp]
          exact ih _ _ hs
      · simp only [hn, if_pos, if_neg hd]
        exact ih _ _ hs
    · simp only [if_neg hn]
      by_cases hd : st.duration - 1 > 0
      · simp only [if_pos hd]
        exact ih _ _ hs
      · simp only [if_neg hd]
        exact ih _ _ hs

/-- The whole turn-start phase keeps the shield nonnegative and never
touches hit points. -/
theorem onTurnStart_nonneg (f : FighterState) (evs : List Event)
    (hs : 0 ≤ f.shield) :
    0 ≤ (onTurnStart f evs).1.shield ∧ (onTurnStart f evs).1.hp = f.hp := by
  unfold onTurnStart
  exact turnStartStatuses_nonneg _ _ _ hs

/-- Catalog lookup returns a catalog value. -/
theorem lookupSkill_mem :
    ∀ (skills : List (String × Skill)) (k : String) (sk : Skill),
      lookupSkill skills k = some sk → ∃ p ∈ skills, p.2 = sk := by
  intro skills
  induction skills with
  | nil => intro k sk h; cases h
  | cons p rest ih =>
    intro k sk h
    rw [lookupSkill] at h
    by_cases hk : p.1 = k
    · rw [if_pos hk, Option.some.injEq] at h
      exact ⟨p, List.mem_cons_self p rest, h⟩
    · rw [if_neg hk] at h
      obtain ⟨q, hq, hq2⟩ := ih k sk h
      exact ⟨q, List.mem_cons_of_mem p hq, hq2⟩

/-- Candidate skills are catalog values. -/
theorem chooseCandidates_mem (skills : List (String × Skill)) (f : FighterState)
    (sk : Skill) (h : sk ∈ chooseCandidates skills f) : ∃ p ∈ skills, p.2 = sk := by
  unfold chooseCandidates at h
  obtain ⟨p, hp, hp2⟩ := List.mem_map.mp h
  exact ⟨p, List.mem_of_mem_filter hp, hp2⟩

/-- An indexed list access with default is a member or the default. -/
theorem getD_mem_or (l : List Skill) :
    ∀ (i : Nat) (d : Skill), l.getD i d ∈ l ∨ l.getD i d = d := by
  induction l with
  | nil => intro i d; right; cases i <;> rfl
  | cons x xs ih =>
    intro i d
    cases i with
    | zero =>
      left
      rw [List.getD_cons_zero]
      exact List.mem_cons_self x xs
    | succ j =>
      rw [List.getD_cons_succ]
      rcases ih j d with hm | he
      · exact Or.inl (List.mem_cons_of_mem x hm)
      · exact Or.inr he

/-- The weighted draw returns a catalog value. -/
theorem chooseSkill_mem (skills : List (String × Skill)) (f : FighterState)
    (r : Rng) (sk : Skill) (r1 : Rng)
    (h : chooseSkill skills f r = .ok (sk, r1)) : ∃ p ∈ skills, p.2 = sk := by
  unfold chooseSkill at h
  split at h
  case _ hcc =>
    split at h
    · rw [Except.ok.injEq, Prod.mk.injEq] at h
      exact lookupSkill_mem skills BASIC_ATTACK_KEY sk (by rw [← h.1]; assumption)
    · cases h
  case _ c cs hcc =>
    split at h
    · cases h
    case _ i r2 hci =>
      rw [Except.ok.injEq, Prod.mk.injEq] at h
      refine chooseCandidates_mem skills f sk ?_
      rw [hcc, ← h.1]
      rcases getD_mem_or (c :: cs) i c with hm | he
      · exact hm
      · rw [he]
        exact List.mem_cons_self c cs

/-- Skill resolution in the action phase returns a catalog value. -/
theorem resolveSelected_mem (skills : List (String × Skill)) (att : FighterState)
    (sel : Option String) (r : Rng) (sk : Skill) (r1 : Rng)
    (h : resolveSelected skills att sel r = .ok (sk, r1)) : ∃ p ∈ skills, p.2 = sk := by
  unfold resolveSelected at h
  split at h
  · exact chooseSkill_mem _ _ _ _ _ h
  case _ k =>
    split at h
    · exact chooseSkill_mem _ _ _ _ _ h
    · split at h
      case _ sk2 hlk =>
        split at h
        · rw [Except.ok.injEq, Prod.mk.injEq] at h
          exact lookupSkill_mem skills k sk (by rw [← h.1]; exact hlk)
        · split at h
          · rw [Except.ok.injEq, Prod.mk.injEq] at h
            exact lookupSkill_mem skills k sk (by rw [← h.1]; exact hlk)
          · exact chooseSkill_mem _ _ _ _ _ h
      case _ hlk =>
        split at h
        · split at h
          case _ bsk hb =>
            rw [Except.ok.injEq, Prod.mk.injEq] at h
            exact lookupSkill_mem skills BASIC_ATTACK_KEY sk (by rw [← h.1]; exact hb)
          · cases h
        · exact chooseSkill_mem _ _ _ _ _ h

/-- Skill execution keeps hit points and shields of both fighters
nonnegative when the executed skill's shield magnitude is nonnegative. -/
theorem executeSkill_nonneg (att dfn : FighterState) (sk : Skill) (r : Rng)
    (evs : List Event) (a1 d1 : FighterState) (r1 : Rng) (evs1 : List Event)
    (hsv : 0 ≤ sk.shield_value)
    (h1 : 0 ≤ att.hp) (h2 : 0 ≤ att.shield)
    (h3 : 0 ≤ dfn.hp) (h4 : 0 ≤ dfn.shield)
    (h : executeSkill att dfn sk r evs = .ok (a1, d1, r1, evs1)) :
    0 ≤ a1.hp ∧ 0 ≤ a1.shield ∧ 0 ≤ d1.hp ∧ 0 ≤ d1.shield := by
  unfold executeSkill at h
  split at h
  · split at h
    · cases h
    case _ d r2 hrand =>
      simp only [Except.ok.injEq, Prod.mk.injEq] at h
      obtain ⟨ha, hd, _, _⟩ := h
      subst ha; subst hd
      have := applyDamage_nonneg dfn d h4
      exact ⟨h1, h2, this.1, this.2⟩
  · by_cases hc : Frac.le (randFloat r).1 sk.chance = true
    · simp only [hc, if_true] at h
      cases hst : sk.status with
      | none => simp only [hst] at h; cases h
      | some sname =>
        simp only [hst, Except.ok.injEq, Prod.mk.injEq] at h
        obtain ⟨ha, hd, _, _⟩ := h
        subst ha; subst hd
        exact ⟨h1, h2, h3, h4⟩
    · rw [Bool.not_eq_true] at hc
      simp only [hc, Bool.false_eq_true, if_false, Except.ok.injEq, Prod.mk.injEq] at h
      obtain ⟨ha, hd, _, _⟩ := h
      subst ha; subst hd
      exact ⟨h1, h2, h3, h4⟩
  · simp only [Except.ok.injEq, Prod.mk.injEq] at h
    obtain ⟨ha, hd, _, _⟩ := h
    subst ha; subst hd
    exact ⟨h1, by simp only; omega, h3, h4⟩

/-- One action phase keeps hit points and shields of both fighters
nonnegative under a catalog with nonnegative shield magnitudes. -/
theorem takeAction_nonneg (skills : List (String × Skill))
    (att dfn : FighterState) (r : Rng) (evs : List Event) (forced : Option String)
    (a1 d1 : FighterState) (r1 : Rng) (evs1 : List Event)
    (hsv : ∀ p ∈ skills, 0 ≤ p.2.shield_value)
    (h1 : 0 ≤ att.hp) (h2 : 0 ≤ att.shield)
    (h3 : 0 ≤ dfn.hp) (h4 : 0 ≤ dfn.shield)
    (h : takeAction skills att dfn r evs forced = .ok (a1, d1, r1, evs1)) :
    0 ≤ a1.hp ∧ 0 ≤ a1.shield ∧ 0 ≤ d1.hp ∧ 0 ≤ d1.shield := by
  unfold takeAction at h
  cases hso : silenceOverride att <;> simp only [hso] at h <;>
  · split at h
    next => cases h
    next sk r2 hres =>
      obtain ⟨p, hp, hp2⟩ := resolveSelected_mem _ _ _ _ _ _ hres
      have hsk : 0 ≤ sk.shield_value := hp2 ▸ hsv p hp
      split at h
      next => cases h
      next a2 d2 r3 evs3 hexe =>
        have hx := executeSkill_nonneg _ _ _ _ _ _ _ _ _ hsk h1 h2 h3 h4 hexe
        split at h <;>
        · simp only [Except.ok.injEq, Prod.mk.injEq] at h
          obtain ⟨ha, hd, _, _⟩ := h
          subst ha; subst hd
          exact ⟨hx.1, hx.2.1, hx.2.2.1, hx.2.2.2⟩

/-- The end-of-round DOT phase keeps hit points and shield nonnegative. -/
theorem onTurnEndDot_nonneg (f : FighterState) (evs : List Event)
    (hh : 0 ≤ f.hp) (hs : 0 ≤ f.shield) :
    0 ≤ (onTurnEndDot f evs).1.hp ∧ 0 ≤ (onTurnEndDot f evs).1.shield := by
  unfold onTurnEndDot
  by_cases hd : dotTotal f.statuses ≤ 0
  · simp only [if_pos hd]
    exact ⟨hh, hs⟩
  · simp only [if_neg hd]
    exact applyDamage_nonneg f _ hs

/-- Win detection never changes the player fighter. -/
theorem checkWinner_player (b : BattleState) (evs : List Event) :
    (checkWinner b evs).1.player = b.player := by
  simp only [checkWinner]
  split <;> rfl

/-- Win detection never changes the ai fighter. -/
theorem checkWinner_ai (b : BattleState) (evs : List Event) :
    (checkWinner b evs).1.ai = b.ai := by
  simp only [checkWinner]
  split <;> rfl

/-- C8 (amended): under a catalog whose configured shield magnitudes are
all nonnegative, round resolution preserves nonnegativity of both
fighters' hit points and shields: hit points are clamped at zero and the
shield is never driven below zero. -/
theorem advanceRound_preserves_nonneg (skills : List (String × Skill))
    (b : BattleState) (fp fa : Option String) (b2 : BattleState) (log : BattleLog)
    (hsv : ∀ p ∈ skills, 0 ≤ p.2.shield_value)
    (hphp : 0 ≤ b.player.hp) (hpsh : 0 ≤ b.player.shield)
    (hahp : 0 ≤ b.ai.hp) (hash : 0 ≤ b.ai.shield)
    (h : advanceRound skills b fp fa = .ok (b2, log)) :
    0 ≤ b2.player.hp ∧ 0 ≤ b2.player.shield ∧ 0 ≤ b2.ai.hp ∧ 0 ≤ b2.ai.shield := by
  obtain ⟨o, ho⟩ := getRng_snd_shape b
  unfold advanceRound at h
  split at h
  · simp only [Except.ok.injEq, Prod.mk.injEq] at h
    obtain ⟨h1, _⟩ := h
    subst h1
    exact ⟨hphp, hpsh, hahp, hash⟩
  · simp only [ho] at h
    split at h
    next => cases h
    next p2 a2 r1 evs3 heq =>
      have hAct1 := takeAction_nonneg skills _ _ _ _ fp p2 a2 r1 evs3 hsv
        (by rw [(onTurnStart_nonneg b.player _ hpsh).2]; exact hphp)
        (onTurnStart_nonneg b.player _ hpsh).1
        (by rw [(onTurnStart_nonneg b.ai _ hash).2]; exact hahp)
        (onTurnStart_nonneg b.ai _ hash).1
        heq
      split at h
      · simp only [Except.ok.injEq, Prod.mk.injEq] at h
        obtain ⟨h1, _⟩ := h
        subst h1
        refine ⟨?_, ?_, ?_, ?_⟩ <;>
          simp only [syncRngState, checkWinner_player, checkWinner_ai] <;>
          first
            | exact hAct1.1
            | exact hAct1.2.1
            | exact hAct1.2.2.1
            | exact hAct1.2.2.2
      · split at h
        next => cases h
        next a3 p3 r2 evs5 heq2 =>
          have hAct2 := takeAction_nonneg skills _ _ _ _ fa a3 p3 r2 evs5 hsv
            (by rw [checkWinner_ai]; exact hAct1.2.2.1)
            (by rw [checkWinner_ai]; exact hAct1.2.2.2)
            (by rw [checkWinner_player]; exact hAct1.1)
            (by rw [checkWinner_player]; exact hAct1.2.1)
            heq2
          split at h
          · simp only [Except.ok.injEq, Prod.mk.injEq] at h
            obtain ⟨h1, _⟩ := h
            subst h1
            refine ⟨?_, ?_, ?_, ?_⟩ <;>
              simp only [syncRngState, checkWinner_player, checkWinner_ai] <;>
              first
                | exact hAct2.2.2.1
                | exact hAct2.2.2.2
                | exact hAct2.1
                | exact hAct2.2.1
          · simp only [Except.ok.injEq, Prod.mk.injEq] at h
            obtain ⟨h1, _⟩ := h
            subst h1
            refine ⟨?_, ?_, ?_, ?_⟩ <;>
              simp only [syncRngState, checkWinner_player, checkWinner_ai]
            · exact (onTurnEndDot_nonneg p3 _ hAct2.2.2.1 hAct2.2.2.2).1
            · exact (onTurnEndDot_nonneg p3 _ hAct2.2.2.1 hAct2.2.2.2).2
            · exact (onTurnEndDot_nonneg a3 _ hAct2.1 hAct2.2.1).1
            · exact (onTurnEndDot_nonneg a3 _ hAct2.1 hAct2.2.1).2

/-- Witness instantiating advanceRound_preserves_nonneg on the fresh
example battle with both forced skills the basic attack. -/
theorem advanceRound_preserves_nonneg_witness :
    (∀ p ∈ exSkills, 0 ≤ p.2.shield_value) ∧
    advanceRound exSkills exBattle (some "basic_attack") (some "basic_attack") =
      .ok (c8b, c8log) ∧
    (0 ≤ c8b.player.hp ∧ 0 ≤ c8b.player.shield ∧ 0 ≤ c8b.ai.hp ∧ 0 ≤ c8b.ai.shield) :=
  ⟨by decide, by decide,
   advanceRound_preserves_nonneg exSkills exBattle (some "basic_attack")
     (some "basic_attack") c8b c8log (by decide) (by decide) (by decide)
     (by decide) (by decide) (by decide)⟩

/-- Counterexample to C8 as stated: a catalog may configure a negative
shield magnitude, and executing that skill drives the fighter's shield
below zero even from a state with nonnegative hit points and shield. -/
theorem advanceRound_negative_shield :
    negBattle.player.shield = 0 ∧ negBattle.player.hp = 1200 ∧
    (advanceRound negSkills negBattle (some "drain") (some "drain")).map
        (fun p => (p.1.player.shield, p.1.ai.shield)) = .ok (-5, -5) :=
  ⟨rfl, rfl, by decide⟩

/-- Last cumulative weight equals the base plus the total weight. -/
theorem cumFrom_getLastD (ws : List Int) :
    ∀ a : Int, (cumFrom a ws).getLastD a = a + ws.sum := by
  induction ws with
  | nil => intro a; simp [cumFrom]
  | cons w ws ih =>
    intro a
    rw [cumFrom, List.getLastD_cons, ih (a + w), List.sum_cons]
    ring

/-- C9: when every off-cooldown non-basic candidate carries weight zero,
the weighted draw raises the total-of-weights error instead of returning
any skill, both directly and through pick_locked_skill_number. -/
theorem chooseSkill_all_zero_weights (skills : List (String × Skill))
    (f : FighterState) (r : Rng) (b : BattleState)
    (hne : chooseCandidates skills f ≠ [])
    (hzero : ∀ sk ∈ chooseCandidates skills f, sk.weight = 0) :
    chooseSkill skills f r =
      .error "ValueError: Total of weights must be greater than zero" ∧
    pickLockedSkillNumber skills b f =
      .error "ValueError: Total of weights must be greater than zero" := by
  have herr : ∀ r1 : Rng, chooseSkill skills f r1 =
      .error "ValueError: Total of weights must be greater than zero" := by
    intro r1
    obtain ⟨c, cs, hcc⟩ : ∃ c cs, chooseCandidates skills f = c :: cs := by
      cases h : chooseCandidates skills f with
      | nil => exact absurd h hne
      | cons c cs => exact ⟨c, cs, rfl⟩
    have hsum : ((c :: cs).map (fun sk => sk.weight)).sum = 0 := by
      refine List.sum_eq_zero ?_
      intro w hw
      obtain ⟨sk, hsk, hws⟩ := List.mem_map.mp hw
      rw [← hws]
      exact hzero sk (hcc ▸ hsk)
    have hchoice : choiceIdx ((c :: cs).map (fun sk => sk.weight)) r1 =
        .error "ValueError: Total of weights must be greater than zero" := by
      have htot : (cumFrom 0 ((c :: cs).map (fun sk => sk.weight))).getLastD 0 = 0 := by
        rw [cumFrom_getLastD, hsum, add_zero]
      unfold choiceIdx
      simp only [htot, le_refl, if_pos]
    unfold chooseSkill
    rw [hcc]
    simp only [hchoice]
  refine ⟨herr r, ?_⟩
  simp only [pickLockedSkillNumber, herr (getRng b).1]

/-- Witness instantiating chooseSkill_all_zero_weights on a catalog whose
only non-basic skill has weight zero. -/
theorem chooseSkill_all_zero_weights_witness :
    chooseCandidates zwSkills zwFighter ≠ [] ∧
    (∀ sk ∈ chooseCandidates zwSkills zwFighter, sk.weight = 0) ∧
    chooseSkill zwSkills zwFighter ⟨5⟩ =
      .error "ValueError: Total of weights must be greater than zero" ∧
    pickLockedSkillNumber zwSkills negBattle zwFighter =
      .error "ValueError: Total of weights must be greater than zero" := by
  refine ⟨by decide, by decide, ?_⟩
  exact chooseSkill_all_zero_weights zwSkills zwFighter ⟨5⟩ negBattle
    (by decide) (by decide)

/-- Replacing or attaching a status of another name keeps the poison
entries unchanged. -/
theorem applyStatusList_poisonFilter :
    ∀ (sts : List StatusEffect) (sname : String) (dur v : Int),
      sname ≠ "poison" →
      poisonFilter (applyStatusList sts sname dur v) = poisonFilter sts := by
  intro sts sname dur v hn
  induction sts with
  | nil =>
    unfold applyStatusList poisonFilter
    simp [hn]
  | cons st rest ih =>
    rw [applyStatusList]
    by_cases hst : st.name = sname
    · rw [if_pos hst]
      unfold poisonFilter
      rw [List.filter_cons, List.filter_cons]
      have h1 : ((⟨sname, dur, v⟩ : StatusEffect).name == "poison") = false := by
        simp only [beq_eq_false_iff_ne]
        exact hn
      have h2 : (st.name == "poison") = false := by
        simp only [beq_eq_false_iff_ne]
        rw [hst]
        exact hn
      rw [h1, h2]
      rfl
    · rw [if_neg hst]
      unfold poisonFilter at ih ⊢
      rw [List.filter_cons, List.filter_cons]
      cases hp : st.name == "poison" <;> simp [ih]

/-- A status list with no poison entry contributes no damage over time. -/
theorem dotTotal_no_poison : ∀ sts, poisonFilter sts = [] → dotTotal sts = 0 := by
  intro sts
  induction sts with
  | nil => intro _; rfl
  | cons st rest ih =>
    intro h
    unfold poisonFilter at h
    rw [List.filter_cons] at h
    by_cases hp : st.name = "poison"
    · rw [if_pos (by simpa using hp)] at h
      cases h
    · rw [if_neg (by simpa using hp)] at h
      rw [dotTotal, if_neg hp, ih h, add_zero]

/-- A status list with exactly one poison entry contributes exactly that
entry's magnitude as damage over time. -/
theorem dotTotal_single : ∀ sts st, poisonFilter sts = [st] → dotTotal sts = st.value := by
  intro sts
  induction sts with
  | nil => intro st h; cases h
  | cons st0 rest ih =>
    intro st h
    unfold poisonFilter at h
    rw [List.filter_cons] at h
    by_cases hp : st0.name = "poison"
    · rw [if_pos (by simpa using hp)] at h
      rw [List.cons.injEq] at h
      rw [dotTotal, if_pos hp, h.1, dotTotal_no_poison rest h.2, add_zero]
    · rw [if_neg (by simpa using hp)] at h
      rw [dotTotal, if_neg hp, ih st h, zero_add]

/-- One turn-start status step appends at most a shield_expire event. -/
theorem turnStartStep_events (f : FighterState) (evs : List Event) (st : StatusEffect) :
    ∃ ext, (turnStartStep f evs st).2.1 = evs ++ ext ∧
      ∀ e ∈ ext, e.type = "shield_expire" := by
  simp only [turnStartStep]
  split_ifs
  · exact ⟨[⟨"shield_expire", some f.name, none, []⟩], rfl, by
      intro e he
      rw [List.mem_singleton] at he
      rw [he]⟩
  all_goals exact ⟨[], (List.append_nil evs).symm, by intro e he; cases he⟩

/-- One turn-start status step never changes the fighter name. -/
theorem turnStartStep_name (f : FighterState) (evs : List Event) (st : StatusEffect) :
    (turnStartStep f evs st).1.name = f.name := by
  simp only [turnStartStep]
  split_ifs <;> rfl

/-- A kept status carries the original name with the decremented duration
and unchanged magnitude. -/
theorem turnStartStep_kept (f : FighterState) (evs : List Event) (st : StatusEffect) :
    (turnStartStep f evs st).2.2 = none ∨
    (turnStartStep f evs st).2.2 = some ⟨st.name, st.duration - 1, st.value⟩ := by
  simp only [turnStartStep]
  split_ifs <;> simp

/-- The turn-start status pass appends only shield_expire events. -/
theorem turnStartStatuses_events :
    ∀ (sts : List StatusEffect) (f : FighterState) (evs : List Event),
      ∃ ext, (turnStartStatuses f evs sts).2.1 = evs ++ ext ∧
        ∀ e ∈ ext, e.type = "shield_expire" := by
  intro sts
  induction sts with
  | nil => intro f evs; exact ⟨[], (List.append_nil evs).symm, by intro e he; cases he⟩
  | cons st rest ih =>
    intro f evs
    rw [turnStartStatuses]
    obtain ⟨e1, he1, he1t⟩ := turnStartStep_events f evs st
    obtain ⟨e2, he2, he2t⟩ := ih (turnStartStep f evs st).1 (turnStartStep f evs st).2.1
    refine ⟨e1 ++ e2, ?_, ?_⟩
    · rw [he2, he1, List.append_assoc]
    · intro e he
      rcases List.mem_append.mp he with h | h
      · exact he1t e h
      · exact he2t e h

/-- The turn-start status pass never changes the fighter name. -/
theorem turnStartStatuses_name :
    ∀ (sts : List StatusEffect) (f : FighterState) (evs : List Event),
      (turnStartStatuses f evs sts).1.name = f.name := by
  intro sts
  induction sts with
  | nil => intro f evs; rfl
  | cons st rest ih =>
    intro f evs
    rw [turnStartStatuses]
    rw [ih, turnStartStep_name]

/-- The turn-start status pass keeps a poison-free status list
poison-free. -/
theorem turnStartStatuses_no_poison :
    ∀ (sts : List StatusEffect) (f : FighterState) (evs : List Event),
      poisonFilter sts = [] →
      poisonFilter (turnStartStatuses f evs sts).2.2 = [] := by
  intro sts
  induction sts with
  | nil => intro f evs _; rfl
  | cons st rest ih =>
    intro f evs h
    unfold poisonFilter at h
    rw [List.filter_cons] at h
    by_cases hp : st.name = "poison"
    · rw [if_pos (by simpa using hp)] at h
      cases h
    · rw [if_neg (by simpa using hp)] at h
      rw [turnStartStatuses]
      unfold poisonFilter
      rw [List.filter_append]
      have hkept : ((turnStartStep f evs st).2.2.toList.filter
          (fun st => st.name == "poison")) = [] := by
        rcases turnStartStep_kept f evs st with hk | hk
        · rw [hk]; rfl
        · rw [hk]
          simp [hp]
      rw [hkept, List.nil_append]
      exact ih _ _ h

/-- The turn-start status pass decrements a single poison entry that has
at least two rounds left and keeps its magnitude. -/
theorem turnStartStatuses_poison_single :
    ∀ (sts : List StatusEffect) (f : FighterState) (evs : List Event) (d M : Int),
      2 ≤ d → poisonFilter sts = [⟨"poison", d, M⟩] →
      poisonFilter (turnStartStatuses f evs sts).2.2 = [⟨"poison", d - 1, M⟩] := by
  intro sts
  induction sts with
  | nil => intro f evs d M _ h; cases h
  | cons st rest ih =>
    intro f evs d M hd h
    unfold poisonFilter at h
    rw [List.filter_cons] at h
    rw [turnStartStatuses]
    unfold poisonFilter
    rw [List.filter_append]
    by_cases hp : st.name = "poison"
    · rw [if_pos (by simpa using hp)] at h
      rw [List.cons.injEq] at h
      obtain ⟨hst, hrest⟩ := h
      subst hst
      have hkept : (turnStartStep f evs ⟨"poison", d, M⟩).2.2 =
          some ⟨"poison", d - 1, M⟩ := by
        simp only [turnStartStep]
        rw [if_neg (by decide), if_pos (by omega : d - 1 > 0)]
      rw [hkept]
      have htail := turnStartStatuses_no_poison rest
        (turnStartStep f evs ⟨"poison", d, M⟩).1
        (turnStartStep f evs ⟨"poison", d, M⟩).2.1 hrest
      unfold poisonFilter at htail
      rw [htail]
      simp
    · rw [if_neg (by simpa using hp)] at h
      have hkept : ((turnStartStep f evs st).2.2.toList.filter
          (fun st => st.name == "poison")) = [] := by
        rcases turnStartStep_kept f evs st with hk | hk
        · rw [hk]; rfl
        · rw [hk]
          simp [hp]
      rw [hkept, List.nil_append]
      exact ih _ _ d M hd h

/-- The whole turn-start phase: name preserved, only shield_expire events
appended. -/
theorem onTurnStart_name (f : FighterState) (evs : List Event) :
    (onTurnStart f evs).1.name = f.name := by
  unfold onTurnStart
  exact turnStartStatuses_name _ _ _

/-- The whole turn-start phase appends only shield_expire events. -/
theorem onTurnStart_events (f : FighterState) (evs : List Event) :
    ∃ ext, (onTurnStart f evs).2 = evs ++ ext ∧
      ∀ e ∈ ext, e.type = "shield_expire" := by
  unfold onTurnStart
  exact turnStartStatuses_events _ _ _

/-- The whole turn-start phase keeps a poison-free fighter poison-free. -/
theorem onTurnStart_no_poison (f : FighterState) (evs : List Event)
    (h : poisonFilter f.statuses = []) :
    poisonFilter (onTurnStart f evs).1.statuses = [] := by
  unfold onTurnStart
  exact turnStartStatuses_no_poison _ _ _ h

/-- The whole turn-start phase on a fighter with one poison entry of at
least two remaining rounds. -/
theorem onTurnStart_poison_single (f : FighterState) (evs : List Event) (d M : Int)
    (hd : 2 ≤ d) (h : poisonFilter f.statuses = [⟨"poison", d, M⟩]) :
    poisonFilter (onTurnStart f evs).1.statuses = [⟨"poison", d - 1, M⟩] := by
  unfold onTurnStart
  exact turnStartStatuses_poison_single _ _ _ d M hd h

/-- A win check that reports no winner is the identity on state and
events. -/
theorem checkWinner_flag_false (b : BattleState) (evs : List Event)
    (h : (checkWinner b evs).2.2 = false) : checkWinner b evs = (b, evs, false) := by
  simp only [checkWinner] at h ⊢
  split at h
  next hc => rw [if_pos hc]
  next hc => simp at h

/-- A win check whose resulting terminal flag is unset reported no winner
and changed nothing. -/
theorem checkWinner_over_false (b : BattleState) (evs : List Event)
    (h : (checkWinner b evs).1.is_over = false) : checkWinner b evs = (b, evs, false) := by
  simp only [checkWinner] at h ⊢
  split at h
  next hc => rw [if_pos hc]
  next hc => simp at h

/-- The DOT phase appends only dot events naming the fighter. -/
theorem onTurnEndDot_events_any (f : FighterState) (evs : List Event) :
    ∃ ext, (onTurnEndDot f evs).2 = evs ++ ext ∧
      ∀ e ∈ ext, e.type = "dot" ∧ e.actor = some f.name := by
  unfold onTurnEndDot
  by_cases hd : dotTotal f.statuses ≤ 0
  · rw [if_pos hd]
    exact ⟨[], (List.append_nil evs).symm, by intro e he; cases he⟩
  · rw [if_neg hd]
    refine ⟨[_], rfl, ?_⟩
    intro e he
    rw [List.mem_singleton] at he
    rw [he]
    exact ⟨rfl, rfl⟩

/-- A positive DOT total M yields exactly one appended dot event with raw
amount M naming the fighter. -/
theorem onTurnEndDot_emits (f : FighterState) (evs : List Event) (M : Int)
    (hM : 0 < M) (hdot : dotTotal f.statuses = M) :
    ∃ hl ab, (onTurnEndDot f evs).2 = evs ++
      [⟨"dot", some f.name, none,
        [("dot", DVal.i M), ("hp_loss", DVal.i hl), ("shield_absorb", DVal.i ab)]⟩] := by
  unfold onTurnEndDot
  rw [hdot, if_neg (by omega)]
  exact ⟨(applyDamage f M).1, (applyDamage f M).2.1, rfl⟩

/-- A win check that reports a winner sets the terminal flag. -/
theorem checkWinner_flag_over (b : BattleState) (evs : List Event)
    (h : (checkWinner b evs).2.2 = true) : (checkWinner b evs).1.is_over = true := by
  simp only [checkWinner] at h ⊢
  split at h
  next hc => cases h
  next hc =>
    rw [if_neg hc]

/-- Skill execution with a skill that does not apply poison: the poison
entries and names of both fighters are unchanged and exactly one non-dot
event is appended. -/
theorem executeSkill_tracked (att dfn : FighterState) (sk : Skill) (r : Rng)
    (evs : List Event) (a1 d1 : FighterState) (r1 : Rng) (evs1 : List Event)
    (hsk : sk.status ≠ some "poison")
    (h : executeSkill att dfn sk r evs = .ok (a1, d1, r1, evs1)) :
    poisonFilter a1.statuses = poisonFilter att.statuses ∧
    poisonFilter d1.statuses = poisonFilter dfn.statuses ∧
    a1.name = att.name ∧ d1.name = dfn.name ∧
    ∃ ev, evs1 = evs ++ [ev] ∧ ev.type ≠ "dot" := by
  unfold executeSkill at h
  split at h
  · split at h
    next => cases h
    next d r2 hrand =>
      simp only [Except.ok.injEq, Prod.mk.injEq] at h
      obtain ⟨ha, hd, _, hevs⟩ := h
      subst ha; subst hd
      refine ⟨rfl, rfl, rfl, rfl, _, hevs.symm, ?_⟩
      simp
  · by_cases hc : Frac.le (randFloat r).1 sk.chance = true
    · simp only [hc, if_true] at h
      cases hst : sk.status with
      | none => simp only [hst] at h; cases h
      | some sname =>
        have hsname : sname ≠ "poison" := by
          intro he
          rw [he] at hst
          exact hsk hst
        simp only [hst, Except.ok.injEq, Prod.mk.injEq] at h
        obtain ⟨ha, hd, _, hevs⟩ := h
        subst ha; subst hd
        refine ⟨rfl, ?_, rfl, rfl, _, hevs.symm, ?_⟩
        · exact applyStatusList_poisonFilter dfn.statuses sname sk.duration sk.value hsname
        · simp
    · rw [Bool.not_eq_true] at hc
      simp only [hc, Bool.false_eq_true, if_false, Except.ok.injEq, Prod.mk.injEq] at h
      obtain ⟨ha, hd, _, hevs⟩ := h
      subst ha; subst hd
      refine ⟨rfl, rfl, rfl, rfl, _, hevs.symm, ?_⟩
      simp
  · simp only [Except.ok.injEq, Prod.mk.injEq] at h
    obtain ⟨ha, hd, _, hevs⟩ := h
    subst ha; subst hd
    refine ⟨?_, rfl, rfl, rfl, _, hevs.symm, ?_⟩
    · exact applyStatusList_poisonFilter att.statuses "shield" sk.duration 0 (by decide)
    · simp

/-- One action phase under a catalog that never applies poison: the poison
entries and names of both fighters are unchanged and only non-dot events
are appended. -/
theorem takeAction_tracked (skills : List (String × Skill))
    (att dfn : FighterState) (r : Rng) (evs : List Event) (forced : Option String)
    (a1 d1 : FighterState) (r1 : Rng) (evs1 : List Event)
    (hps : ∀ p ∈ skills, p.2.status ≠ some "poison")
    (h : takeAction skills att dfn r evs forced = .ok (a1, d1, r1, evs1)) :
    poisonFilter a1.statuses = poisonFilter att.statuses ∧
    poisonFilter d1.statuses = poisonFilter dfn.statuses ∧
    a1.name = att.name ∧ d1.name = dfn.name ∧
    ∃ ext, evs1 = evs ++ ext ∧ ∀ e ∈ ext, e.type ≠ "dot" := by
  unfold takeAction at h
  cases hso : silenceOverride att with
  | some st =>
    simp only [hso] at h
    split at h
    next => cases h
    next sk r2 hres =>
      obtain ⟨p, hp, hp2⟩ := resolveSelected_mem _ _ _ _ _ _ hres
      have hsk : sk.status ≠ some "poison" := hp2 ▸ hps p hp
      split at h
      next => cases h
      next a2 d2 r3 evs3 hexe =>
        obtain ⟨hx1, hx2, hx3, hx4, ev, hev, hevt⟩ :=
          executeSkill_tracked _ _ _ _ _ _ _ _ _ hsk hexe
        split at h <;>
        · simp only [Except.ok.injEq, Prod.mk.injEq] at h
          obtain ⟨ha, hd, _, hevs⟩ := h
          subst ha; subst hd
          refine ⟨hx1, hx2, hx3, hx4,
            ⟨"forced_basic_attack", some att.name, none, [("reason", DVal.s st.name)]⟩ ::
              ⟨"skill_use", some att.name, none,
                [("skill_key", DVal.s sk.key), ("skill_name", DVal.s sk.name)]⟩ :: [ev],
            ?_, ?_⟩
          · rw [← hevs, hev]
            simp [List.append_assoc]
          · intro e he
            simp only [List.mem_cons, List.not_mem_nil, or_false] at he
            rcases he with rfl | rfl | rfl
            · simp
            · simp
            · exact hevt
  | none =>
    simp only [hso] at h
    split at h
    next => cases h
    next sk r2 hres =>
      obtain ⟨p, hp, hp2⟩ := resolveSelected_mem _ _ _ _ _ _ hres
      have hsk : sk.status ≠ some "poison" := hp2 ▸ hps p hp
      split at h
      next => cases h
      next a2 d2 r3 evs3 hexe =>
        obtain ⟨hx1, hx2, hx3, hx4, ev, hev, hevt⟩ :=
          executeSkill_tracked _ _ _ _ _ _ _ _ _ hsk hexe
        split at h <;>
        · simp only [Except.ok.injEq, Prod.mk.injEq] at h
          obtain ⟨ha, hd, _, hevs⟩ := h
          subst ha; subst hd
          refine ⟨hx1, hx2, hx3, hx4,
            ⟨"skill_use", some att.name, none,
              [("skill_key", DVal.s sk.key), ("skill_name", DVal.s sk.name)]⟩ :: [ev],
            ?_, ?_⟩
          · rw [← hevs, hev]
            simp [List.append_assoc]
          · intro e he
            simp only [List.mem_cons, List.not_mem_nil, or_false] at he
            rcases he with rfl | rfl
            · simp
            · exact hevt

/-- The player role resolves to the player fighter. -/
theorem roleFighter_true (b : BattleState) : roleFighter b true = b.player := rfl

/-- The ai role resolves to the ai fighter. -/
theorem roleFighter_false (b : BattleState) : roleFighter b false = b.ai := rfl

/-- In an event list split into a dot-free prefix and a skill-use-free
suffix, every skill_use event precedes every dot event. -/
theorem dots_after_skill_use (evs A B : List Event) (hAB : evs = A ++ B)
    (hA : ∀ e ∈ A, e.type ≠ "dot") (hB : ∀ e ∈ B, e.type ≠ "skill_use") :
    ∀ (i j : Nat), i < evs.length → j < evs.length →
      (evs.getD i ⟨"", none, none, []⟩).type = "skill_use" →
      (evs.getD j ⟨"", none, none, []⟩).type = "dot" → i < j := by
  subst hAB
  intro i j hi hj hsu hdot
  rw [List.getD_eq_getElem?_getD, List.getElem?_eq_getElem hi,
    Option.getD_some] at hsu
  rw [List.getD_eq_getElem?_getD, List.getElem?_eq_getElem hj,
    Option.getD_some] at hdot
  rcases lt_or_ge i A.length with h1 | h1
  · rcases lt_or_ge j A.length with h2 | h2
    · exfalso
      rw [List.getElem_append_left h2] at hdot
      exact hA _ (List.getElem_mem _) hdot
    · omega
  · exfalso
    rw [List.getElem_append_right h1] at hsu
    exact hB _ (List.getElem_mem _) hsu

/-- C2 (amended): in a resolved round that does not end the battle, a
fighter carrying exactly one Poison status of magnitude M > 0 whose
remaining duration is at least two rounds — so that it survives the
turn-start decrement — receives exactly one dot event with raw amount M,
positioned after both action phases, provided no catalog skill applies
the poison status and the two fighters carry distinct names. -/
theorem advanceRound_poison_dot (skills : List (String × Skill))
    (b : BattleState) (fp fa : Option String) (b2 : BattleState) (log : BattleLog)
    (isP : Bool) (d M : Int)
    (hnames : b.player.name ≠ b.ai.name)
    (hps : ∀ p ∈ skills, p.2.status ≠ some "poison")
    (hpf : poisonFilter (roleFighter b isP).statuses = [⟨"poison", d, M⟩])
    (hd : 2 ≤ d) (hM : 0 < M)
    (h : advanceRound skills b fp fa = .ok (b2, log))
    (hnotover : b2.is_over = false) :
    (log.events.filter (fun e =>
        e.type == "dot" && e.actor == some (roleFighter b isP).name)).length = 1 ∧
    (∀ e ∈ log.events, e.type = "dot" → e.actor = some (roleFighter b isP).name →
        detailGet e.detail "dot" = .ok (.i M)) ∧
    (∀ (i j : Nat), i < log.events.length → j < log.events.length →
        (log.events.getD i ⟨"", none, none, []⟩).type = "skill_use" →
        (log.events.getD j ⟨"", none, none, []⟩).type = "dot" → i < j) := by
  obtain ⟨o, ho⟩ := getRng_snd_shape b
  unfold advanceRound at h
  split at h
  next hov =>
    simp only [Except.ok.injEq, Prod.mk.injEq] at h
    obtain ⟨h1, _⟩ := h
    subst h1
    rw [hov] at hnotover
    cases hnotover
  next hov =>
    simp only [ho] at h
    split at h
    next => cases h
    next p2 a2 r1 evs3 heq1 =>
      obtain ⟨hA1p, hA1d, hA1pn, hA1dn, ext1, hext1, hext1t⟩ :=
        takeAction_tracked skills _ _ _ _ fp p2 a2 r1 evs3 hps heq1
      split at h
      next hcond =>
        simp only [Except.ok.injEq, Prod.mk.injEq] at h
        obtain ⟨h1, _⟩ := h
        subst h1
        have hover := checkWinner_flag_over _ _ hcond
        simp only [syncRngState] at hnotover
        rw [hover] at hnotover
        cases hnotover
      next hcond =>
        have hw1 := checkWinner_flag_false _ _ (by simpa using hcond)
        simp only [hw1] at h
        split at h
        next => cases h
        next a3 p3 r2 evs5 heq2 =>
          obtain ⟨hA2a, hA2d, hA2an, hA2dn, ext2, hext2, hext2t⟩ :=
            takeAction_tracked skills _ _ _ _ fa a3 p3 r2 evs5 hps heq2
          split at h
          next hcond2 =>
            simp only [Except.ok.injEq, Prod.mk.injEq] at h
            obtain ⟨h1, _⟩ := h
            subst h1
            have hover := checkWinner_flag_over _ _ hcond2
            simp only [syncRngState] at hnotover
            rw [hover] at hnotover
            cases hnotover
          next hcond2 =>
            have hw2 := checkWinner_flag_false _ _ (by simpa using hcond2)
            simp only [hw2] at h
            simp only [Except.ok.injEq, Prod.mk.injEq] at h
            obtain ⟨h1, h2⟩ := h
            subst h1
            subst h2
            simp only [syncRngState] at hnotover
            have hw3 := checkWinner_over_false _ _ hnotover
            obtain ⟨ts1x, hts1, hts1t⟩ := onTurnStart_events b.player
              [⟨"round_start", none, none, [("round", DVal.i (b.round_no + 1))]⟩]
            obtain ⟨ts2x, hts2, hts2t⟩ := onTurnStart_events b.ai
              (onTurnStart b.player
                [⟨"round_start", none, none, [("round", DVal.i (b.round_no + 1))]⟩]).2
            have hnameP : p3.name = b.player.name := by
              rw [hA2dn, hA1pn, onTurnStart_name]
            have hnameA : a3.name = b.ai.name := by
              rw [hA2an, hA1dn, onTurnStart_name]
            cases isP with
            | true =>
              simp only [roleFighter_true] at hpf ⊢
              have hpf1 := onTurnStart_poison_single b.player
                [⟨"round_start", none, none, [("round", DVal.i (b.round_no + 1))]⟩]
                d M hd hpf
              have hpf3 : poisonFilter p3.statuses = [⟨"poison", d - 1, M⟩] :=
                (hA2d.trans hA1p).trans hpf1
              have hdt : dotTotal p3.statuses = M := by
                rw [dotTotal_single _ _ hpf3]
              obtain ⟨hl, ab, hdp⟩ := onTurnEndDot_emits p3 evs5 M hM hdt
              obtain ⟨dax, hda, hdat⟩ :=
                onTurnEndDot_events_any a3 (onTurnEndDot p3 evs5).2
              simp only [hw3]
              rw [hda, hdp, List.append_assoc]
              have hA : ∀ e ∈ evs5, e.type ≠ "dot" := by
                intro e he
                rw [hext2, hext1, hts2, hts1] at he
                simp only [List.mem_append, List.mem_singleton] at he
                rcases he with ((((he | he) | he) | he) | he)
                · rw [he]; simp
                · rw [hts1t e he]; simp
                · rw [hts2t e he]; simp
                · exact hext1t e he
                · exact hext2t e he
              refine ⟨?_, ?_, ?_⟩
              · have hfA : List.filter
                    (fun e => e.type == "dot" && e.actor == some b.player.name)
                    evs5 = [] :=
                  List.filter_eq_nil_iff.mpr (fun e he => by
                    have := hA e he; simp [this])
                have hfdax : List.filter
                    (fun e => e.type == "dot" && e.actor == some b.player.name)
                    dax = [] :=
                  List.filter_eq_nil_iff.mpr (fun e he => by
                    simp [(hdat e he).2, hnameA, Ne.symm hnames])
                rw [List.filter_append, List.filter_append, hfA, hfdax]
                simp [hnameP]
              · intro e he htype hactor
                simp only [List.mem_append, List.mem_singleton] at he
                rcases he with he | he | he
                · exact absurd htype (hA e he)
                · rw [he]
                  rfl
                · exfalso
                  rw [(hdat e he).2, hnameA] at hactor
                  rw [Option.some.injEq] at hactor
                  exact hnames hactor.symm
              · refine dots_after_skill_use _ evs5 _ rfl hA ?_
                intro e he
                simp only [List.mem_append, List.mem_singleton] at he
                rcases he with he | he
                · rw [he]; simp
                · rw [(hdat e he).1]; simp
            | false =>
              simp only [roleFighter_false] at hpf ⊢
              have hpf1 := onTurnStart_poison_single b.ai
                (onTurnStart b.player
                  [⟨"round_start", none, none,
                    [("round", DVal.i (b.round_no + 1))]⟩]).2
                d M hd hpf
              have hpf3 : poisonFilter a3.statuses = [⟨"poison", d - 1, M⟩] :=
                (hA2a.trans hA1d).trans hpf1
              have hdt : dotTotal a3.statuses = M := by
                rw [dotTotal_single _ _ hpf3]
              obtain ⟨dpx, hdpx, hdpxt⟩ := onTurnEndDot_events_any p3 evs5
              obtain ⟨hl, ab, hda⟩ := onTurnEndDot_emits a3
                (onTurnEndDot p3 evs5).2 M hM hdt
              simp only [hw3]
              rw [hda, hdpx, List.append_assoc]
              have hA : ∀ e ∈ evs5, e.type ≠ "dot" := by
                intro e he
                rw [hext2, hext1, hts2, hts1] at he
                simp only [List.mem_append, List.mem_singleton] at he
                rcases he with ((((he | he) | he) | he) | he)
                · rw [he]; simp
                · rw [hts1t e he]; simp
                · rw [hts2t e he]; simp
                · exact hext1t e he
                · exact hext2t e he
              refine ⟨?_, ?_, ?_⟩
              · have hfA : List.filter
                    (fun e => e.type == "dot" && e.actor == some b.ai.name)
                    evs5 = [] :=
                  List.filter_eq_nil_iff.mpr (fun e he => by
                    have := hA e he; simp [this])
                have hfdpx : List.filter
                    (fun e => e.type == "dot" && e.actor == some b.ai.name)
                    dpx = [] :=
                  List.filter_eq_nil_iff.mpr (fun e he => by
                    simp [(hdpxt e he).2, hnameP, hnames])
                rw [List.filter_append, List.filter_append, hfA, hfdpx]
                simp [hnameA]
              · intro e he htype hactor
                simp only [List.mem_append, List.mem_singleton] at he
                rcases he with he | he | he
                · exact absurd htype (hA e he)
                · exfalso
                  rw [(hdpxt e he).2, hnameP] at hactor
                  rw [Option.some.injEq] at hactor
                  exact hnames hactor
                · rw [he]
                  rfl
              · refine dots_after_skill_use _ evs5 _ rfl hA ?_
                intro e he
                simp only [List.mem_append, List.mem_singleton] at he
                rcases he with he | he
                · rw [(hdpxt e he).1]; simp
                · rw [he]; simp

/-- Witness instantiating advanceRound_poison_dot on the ai role of a
concrete battle carrying a three-round poison of magnitude 45. -/
theorem advanceRound_poison_dot_witness :
    c2Battle.player.name ≠ c2Battle.ai.name ∧
    (∀ p ∈ negSkills, p.2.status ≠ some "poison") ∧
    poisonFilter (roleFighter c2Battle false).statuses = [⟨"poison", 3, 45⟩] ∧
    (2 : Int) ≤ 3 ∧ (0 : Int) < 45 ∧
    advanceRound negSkills c2Battle (some "basic_attack") (some "basic_attack") =
      .ok (c2b, c2log) ∧
    c2b.is_over = false ∧
    ((c2log.events.filter (fun e =>
        e.type == "dot" && e.actor == some (roleFighter c2Battle false).name)).length = 1 ∧
     (∀ e ∈ c2log.events, e.type = "dot" →
        e.actor = some (roleFighter c2Battle false).name →
        detailGet e.detail "dot" = .ok (.i 45)) ∧
     (∀ (i j : Nat), i < c2log.events.length → j < c2log.events.length →
        (c2log.events.getD i ⟨"", none, none, []⟩).type = "skill_use" →
        (c2log.events.getD j ⟨"", none, none, []⟩).type = "dot" → i < j)) :=
  ⟨by decide, by decide, by decide, by decide, by decide, by decide, by decide,
   advanceRound_poison_dot negSkills c2Battle (some "basic_attack")
     (some "basic_attack") c2b c2log false 3 45 (by decide) (by decide) (by decide)
     (by decide) (by decide) (by decide) (by decide)⟩

/-- Counterexample to C2 as stated: a poison with one remaining round is
dropped by the turn-start decrement before the end-of-round phase, so a
full resolved round that does not end the battle emits no dot event at
all. -/
theorem advanceRound_poison_one_round_no_dot :
    poi1Battle.ai.statuses = [⟨"poison", 1, 45⟩] ∧
    (advanceRound exSkills poi1Battle (some "basic_attack") (some "basic_attack")).map
        (fun p => (p.1.is_over, p.2.events.countP (fun e => e.type == "dot"))) =
      .ok (false, 0) :=
  ⟨rfl, by decide⟩

/-- A successful first-index search points at the searched key. -/
theorem indexOfKey_get? :
    ∀ (l : List String) (key : String) (i : Nat),
      indexOfKey l key = .ok i → l.get? i = some key := by
  intro l
  induction l with
  | nil => intro key i h; cases h
  | cons k rest ih =>
    intro key i h
    rw [indexOfKey] at h
    by_cases hk : k = key
    · rw [if_pos hk, Except.ok.injEq] at h
      subst h
      rw [hk]
      rfl
    · rw [if_neg hk] at h
      cases hx : indexOfKey rest key with
      | error e => rw [hx] at h; cases h
      | ok j =>
        rw [hx] at h
        simp only [Except.map, Except.ok.injEq] at h
        subst h
        exact ih key j hx

/-- A present key is found by the first-index search. -/
theorem indexOfKey_exists :
    ∀ (l : List String) (key : String), key ∈ l → ∃ i, indexOfKey l key = .ok i := by
  intro l
  induction l with
  | nil => intro key h; cases h
  | cons k rest ih =>
    intro key h
    by_cases hk : k = key
    · exact ⟨0, by rw [indexOfKey, if_pos hk]⟩
    · have hm : key ∈ rest := by
        rcases List.mem_cons.mp h with h1 | h1
        · exact absurd h1.symm hk
        · exact h1
      obtain ⟨j, hj⟩ := ih key hm
      exact ⟨j + 1, by rw [indexOfKey, if_neg hk, hj]; rfl⟩

/-- The ordinal assigned to a catalog key maps back to the same key. -/
theorem keyToNumber_roundtrip (skills : List (String × Skill)) (k : String) (n : Int)
    (h : skillKeyToNumber skills k = .ok n) : skillNumberToKey skills n = .ok k := by
  unfold skillKeyToNumber at h
  cases hx : indexOfKey (skillOrder skills) k with
  | error e => rw [hx] at h; cases h
  | ok i =>
    rw [hx] at h
    have h2 : Except.ok ((i : Int) + 1) = Except.ok n := h
    rw [Except.ok.injEq] at h2
    subst h2
    have hg := indexOfKey_get? _ _ _ hx
    have hlen : i < (skillOrder skills).length := by
      by_contra hc
      rw [List.get?_eq_none.mpr (by omega)] at hg
      cases hg
    unfold skillNumberToKey
    rw [if_neg (by omega)]
    have ht : ((i : Int) + 1 - 1).toNat = i := by omega
    rw [ht, hg]

/-- Catalog lookup of a present key returns its value together with the
matched key. -/
theorem lookupSkill_mem_key :
    ∀ (skills : List (String × Skill)) (k : String) (sk : Skill),
      lookupSkill skills k = some sk → ∃ p ∈ skills, p.2 = sk ∧ p.1 = k := by
  intro skills
  induction skills with
  | nil => intro k sk h; cases h
  | cons p rest ih =>
    intro k sk h
    rw [lookupSkill] at h
    by_cases hk : p.1 = k
    · rw [if_pos hk, Option.some.injEq] at h
      exact ⟨p, List.mem_cons_self p rest, h, hk⟩
    · rw [if_neg hk] at h
      obtain ⟨q, hq, hq2, hq3⟩ := ih k sk h
      exact ⟨q, List.mem_cons_of_mem p hq, hq2, hq3⟩

/-- In a catalog without duplicate keys, looking up a stored pair's own
key finds that pair's value. -/
theorem lookupSkill_self :
    ∀ (skills : List (String × Skill)),
      (skills.map (fun p => p.1)).Nodup →
      ∀ p ∈ skills, lookupSkill skills p.1 = some p.2 := by
  intro skills
  induction skills with
  | nil => intro _ p hp; cases hp
  | cons q rest ih =>
    intro hnd p hp
    rw [List.map_cons, List.nodup_cons] at hnd
    rcases List.mem_cons.mp hp with h1 | h1
    · subst h1
      rw [lookupSkill, if_pos rfl]
    · have hne : q.1 ≠ p.1 := by
        intro he
        exact hnd.1 (he ▸ List.mem_map_of_mem (fun p => p.1) h1)
      rw [lookupSkill, if_neg hne]
      exact ih hnd.2 p h1

/-- Candidate skills together with their defining predicate. -/
theorem chooseCandidates_spec (skills : List (String × Skill)) (f : FighterState)
    (sk : Skill) (h : sk ∈ chooseCandidates skills f) :
    ∃ p ∈ skills, p.2 = sk ∧ p.1 ≠ BASIC_ATTACK_KEY ∧ cdGet f.cooldowns p.1 = 0 := by
  unfold chooseCandidates at h
  obtain ⟨p, hp, hp2⟩ := List.mem_map.mp h
  rw [List.mem_filter] at hp
  have hpred := of_decide_eq_true hp.2
  exact ⟨p, hp.1, hp2, hpred.1, hpred.2⟩

/-- Under a catalog that stores each skill under its own key, the weighted
draw returns a catalog skill that is either off cooldown or the basic
attack. -/
theorem chooseSkill_spec (skills : List (String × Skill)) (f : FighterState)
    (r : Rng) (sk : Skill) (r1 : Rng)
    (wfk : ∀ p ∈ skills, p.2.key = p.1)
    (h : chooseSkill skills f r = .ok (sk, r1)) :
    ∃ p ∈ skills, p.2 = sk ∧ p.1 = sk.key ∧
      (cdGet f.cooldowns sk.key = 0 ∨ sk.key = BASIC_ATTACK_KEY) := by
  unfold chooseSkill at h
  split at h
  case _ hcc =>
    split at h
    case _ bsk hb =>
      rw [Except.ok.injEq, Prod.mk.injEq] at h
      obtain ⟨q, hq, hq2, hq3⟩ := lookupSkill_mem_key skills BASIC_ATTACK_KEY sk
        (by rw [← h.1]; exact hb)
      refine ⟨q, hq, hq2, ?_, Or.inr ?_⟩
      · rw [← hq2, wfk q hq]
      · rw [← hq2, wfk q hq, hq3]
    case _ => cases h
  case _ c cs hcc =>
    split at h
    · cases h
    case _ i r2 hci =>
      rw [Except.ok.injEq, Prod.mk.injEq] at h
      have hmem : sk ∈ chooseCandidates skills f := by
        rw [hcc, ← h.1]
        rcases getD_mem_or (c :: cs) i c with hm | he
        · exact hm
        · rw [he]; exact List.mem_cons_self c cs
      obtain ⟨p, hp, hp2, hp3, hp4⟩ := chooseCandidates_spec skills f sk hmem
      have hkey : p.1 = sk.key := by rw [← hp2, wfk p hp]
      exact ⟨p, hp, hp2, hkey, Or.inl (hkey ▸ hp4)⟩

/-- The preview draw yields an ordinal that maps back to a stored catalog
skill which is off cooldown for the previewed fighter or is the basic
attack; only the serialized token changes on the battle. -/
theorem pickLocked_spec (skills : List (String × Skill)) (b : BattleState)
    (f : FighterState) (n : Int) (b2 : BattleState)
    (wfk : ∀ p ∈ skills, p.2.key = p.1)
    (wfn : (skills.map (fun p => p.1)).Nodup)
    (h : pickLockedSkillNumber skills b f = .ok (n, b2)) :
    ∃ sk tok,
      skillNumberToKey skills n = .ok sk.key ∧
      lookupSkill skills sk.key = some sk ∧
      (∃ p ∈ skills, p.1 = sk.key) ∧
      (cdGet f.cooldowns sk.key = 0 ∨ sk.key = BASIC_ATTACK_KEY) ∧
      b2 = { b with rng_state_b64 := some tok } := by
  obtain ⟨o, ho⟩ := getRng_snd_shape b
  unfold pickLockedSkillNumber at h
  simp only [ho] at h
  cases hcs : chooseSkill skills f (getRng b).1 with
  | error e => simp only [hcs] at h; cases h
  | ok p =>
    obtain ⟨sk0, r1⟩ := p
    simp only [hcs] at h
    cases hkn : skillKeyToNumber skills sk0.key with
    | error e => simp only [hkn] at h; cases h
    | ok m =>
      simp only [hkn, Except.ok.injEq, Prod.mk.injEq] at h
      obtain ⟨h1, h2⟩ := h
      subst h1
      obtain ⟨q, hq, hq2, hq3, hcd⟩ := chooseSkill_spec skills f _ sk0 r1 wfk hcs
      refine ⟨sk0, serializeNat r1.state,
        keyToNumber_roundtrip skills sk0.key m hkn, ?_, ⟨q, hq, hq3⟩, hcd, h2.symm⟩
      have hself := lookupSkill_self skills wfn q hq
      rw [hq3, hq2] at hself
      exact hself

/-- A retrievable pending entry is contained. -/
theorem pendingGet?_contains :
    ∀ (d : List (Int × Int)) (k n : Int),
      pendingGet? d k = some n → pendingContains d k = true := by
  intro d
  induction d with
  | nil => intro k n h; cases h
  | cons p rest ih =>
    intro k n h
    obtain ⟨pk, pv⟩ := p
    rw [pendingGet?] at h
    rw [pendingContains]
    by_cases hk : pk = k
    · rw [if_pos hk]
    · rw [if_neg hk] at h
      rw [if_neg hk]
      exact ih k n h

/-- The cooldown decrement pass keeps a zero cooldown at zero. -/
theorem cdGet_decAll_zero :
    ∀ (d : List (String × Int)) (k : String),
      cdGet d k = 0 → cdGet (cdDecAll d) k = 0 := by
  intro d
  induction d with
  | nil => intro k _; rfl
  | cons p rest ih =>
    intro k h
    obtain ⟨pk, pv⟩ := p
    rw [cdGet] at h
    simp only [cdDecAll, List.map_cons]
    by_cases hk : pk = k
    · rw [if_pos hk] at h
      subst h
      rw [if_neg (by norm_num), cdGet, if_pos hk]
    · rw [if_neg hk] at h
      by_cases hv : pv > 0
      · rw [if_pos hv, cdGet, if_neg hk]
        exact ih k h
      · rw [if_neg hv, cdGet, if_neg hk]
        exact ih k h

/-- One turn-start status step never changes the cooldowns. -/
theorem turnStartStep_cooldowns (f : FighterState) (evs : List Event) (st : StatusEffect) :
    (turnStartStep f evs st).1.cooldowns = f.cooldowns := by
  simp only [turnStartStep]
  split_ifs <;> rfl

/-- The turn-start status pass never changes the cooldowns. -/
theorem turnStartStatuses_cooldowns :
    ∀ (sts : List StatusEffect) (f : FighterState) (evs : List Event),
      (turnStartStatuses f evs sts).1.cooldowns = f.cooldowns := by
  intro sts
  induction sts with
  | nil => intro f evs; rfl
  | cons st rest ih =>
    intro f evs
    rw [turnStartStatuses]
    rw [ih, turnStartStep_cooldowns]

/-- The turn-start phase performs exactly the cooldown decrement pass on
the cooldown map. -/
theorem onTurnStart_cooldowns (f : FighterState) (evs : List Event) :
    (onTurnStart f evs).1.cooldowns = cdDecAll f.cooldowns := by
  unfold onTurnStart
  exact turnStartStatuses_cooldowns _ _ _

/-- A kept status carries the original name and a still-positive
decremented duration. -/
theorem turnStartStep_kept_pos (f : FighterState) (evs : List Event) (st : StatusEffect) :
    (turnStartStep f evs st).2.2 = none ∨
    ((turnStartStep f evs st).2.2 = some ⟨st.name, st.duration - 1, st.value⟩ ∧
      0 < st.duration - 1) := by
  simp only [turnStartStep]
  split_ifs with h1 h2 h3 h4
  · left; rfl
  · left; rfl
  · right
    refine ⟨rfl, ?_⟩
    simp only [not_le] at h2
    exact h2
  · right
    exact ⟨rfl, h4⟩
  · left; rfl

/-- Every status kept by the turn-start pass stems from a source status
with the same name whose duration was at least two. -/
theorem turnStartStatuses_kept_src :
    ∀ (sts : List StatusEffect) (f : FighterState) (evs : List Event),
      ∀ st' ∈ (turnStartStatuses f evs sts).2.2,
        ∃ st ∈ sts, st'.name = st.name ∧ 0 < st.duration - 1 := by
  intro sts
  induction sts with
  | nil => intro f evs st' h; cases h
  | cons st rest ih =>
    intro f evs st' h
    simp only [turnStartStatuses, List.mem_append] at h
    rcases h with h | h
    · rcases turnStartStep_kept_pos f evs st with hk | ⟨hk, hpos⟩
      · rw [hk] at h; cases h
      · rw [hk] at h
        rw [Option.toList_some, List.mem_singleton] at h
        subst h
        exact ⟨st, List.mem_cons_self st rest, rfl, hpos⟩
    · obtain ⟨st0, hst0, hn, hp⟩ := ih _ _ st' h
      exact ⟨st0, List.mem_cons_of_mem st hst0, hn, hp⟩

/-- A fighter with no silence-named status gets no action override. -/
theorem silenceOverride_none (f : FighterState)
    (h : ∀ st ∈ f.statuses, st.name ≠ "silence") : silenceOverride f = none := by
  unfold silenceOverride
  rw [List.find?_eq_none]
  intro st hst
  simp only [beq_iff_eq]
  exact h st hst

/-- After the turn-start pass of a fighter whose silences all have at most
one remaining round, no silence survives. -/
theorem onTurnStart_silence_gone (f : FighterState) (evs : List Event)
    (h : ∀ st ∈ f.statuses, st.name = "silence" → st.duration ≤ 1) :
    ∀ st ∈ (onTurnStart f evs).1.statuses, st.name ≠ "silence" := by
  intro st' hst' hname
  simp only [onTurnStart] at hst'
  obtain ⟨st, hst, hn, hp⟩ := turnStartStatuses_kept_src _ _ _ st' hst'
  have hs : st.name = "silence" := by rw [← hn]; exact hname
  have := h st hst hs
  omega

/-- Every status present after an application carries the newly applied
name or a previously present name. -/
theorem applyStatusList_names :
    ∀ (sts : List StatusEffect) (sname : String) (dur v : Int) (st : StatusEffect),
      st ∈ applyStatusList sts sname dur v →
      st.name = sname ∨ ∃ st0 ∈ sts, st.name = st0.name := by
  intro sts
  induction sts with
  | nil =>
    intro sname dur v st h
    rw [applyStatusList, List.mem_singleton] at h
    subst h
    exact Or.inl rfl
  | cons st0 rest ih =>
    intro sname dur v st h
    rw [applyStatusList] at h
    by_cases hn : st0.name = sname
    · rw [if_pos hn, List.mem_cons] at h
      rcases h with h | h
      · subst h; exact Or.inl rfl
      · exact Or.inr ⟨st, List.mem_cons_of_mem st0 h, rfl⟩
    · rw [if_neg hn, List.mem_cons] at h
      rcases h with h | h
      · exact Or.inr ⟨st0, List.mem_cons_self _ _, by rw [h]⟩
      · rcases ih sname dur v st h with h1 | ⟨q, hq, hq2⟩
        · exact Or.inl h1
        · exact Or.inr ⟨q, List.mem_cons_of_mem st0 hq, hq2⟩

/-- Skill execution with a skill that does not apply silence keeps a
silence-free defender silence-free. -/
theorem executeSkill_dfn_noSilence (att dfn : FighterState) (sk : Skill) (r : Rng)
    (evs : List Event) (a1 d1 : FighterState) (r1 : Rng) (evs1 : List Event)
    (hsk : sk.status ≠ some "silence")
    (hd : ∀ st ∈ dfn.statuses, st.name ≠ "silence")
    (h : executeSkill att dfn sk r evs = .ok (a1, d1, r1, evs1)) :
    ∀ st ∈ d1.statuses, st.name ≠ "silence" := by
  unfold executeSkill at h
  split at h
  · split at h
    next => cases h
    next d r2 hrand =>
      simp only [Except.ok.injEq, Prod.mk.injEq] at h
      obtain ⟨_, hdd, _, _⟩ := h
      subst hdd
      exact hd
  · by_cases hc : Frac.le (randFloat r).1 sk.chance = true
    · simp only [hc, if_true] at h
      cases hst : sk.status with
      | none => simp only [hst] at h; cases h
      | some sname =>
        have hsname : sname ≠ "silence" := fun he => hsk (by rw [hst, he])
        simp only [hst, Except.ok.injEq, Prod.mk.injEq] at h
        obtain ⟨_, hdd, _, _⟩ := h
        subst hdd
        intro st hst2 hname
        rcases applyStatusList_names dfn.statuses sname sk.duration sk.value st hst2
          with h1 | ⟨q, hq, hq2⟩
        · exact hsname (by rw [← h1]; exact hname)
        · exact hd q hq (by rw [← hq2]; exact hname)
    · rw [Bool.not_eq_true] at hc
      simp only [hc, Bool.false_eq_true, if_false, Except.ok.injEq, Prod.mk.injEq] at h
      obtain ⟨_, hdd, _, _⟩ := h
      subst hdd
      exact hd
  · simp only [Except.ok.injEq, Prod.mk.injEq] at h
    obtain ⟨_, hdd, _, _⟩ := h
    subst hdd
    exact hd

/-- Skill execution never changes the defender's cooldowns. -/
theorem executeSkill_dfn_cooldowns (att dfn : FighterState) (sk : Skill) (r : Rng)
    (evs : List Event) (a1 d1 : FighterState) (r1 : Rng) (evs1 : List Event)
    (h : executeSkill att dfn sk r evs = .ok (a1, d1, r1, evs1)) :
    d1.cooldowns = dfn.cooldowns := by
  unfold executeSkill at h
  split at h
  · split at h
    next => cases h
    next d r2 hrand =>
      simp only [Except.ok.injEq, Prod.mk.injEq] at h
      obtain ⟨_, hdd, _, _⟩ := h
      subst hdd
      rfl
  · by_cases hc : Frac.le (randFloat r).1 sk.chance = true
    · simp only [hc, if_true] at h
      cases hst : sk.status with
      | none => simp only [hst] at h; cases h
      | some sname =>
        simp only [hst, Except.ok.injEq, Prod.mk.injEq] at h
        obtain ⟨_, hdd, _, _⟩ := h
        subst hdd
        rfl
    · rw [Bool.not_eq_true] at hc
      simp only [hc, Bool.false_eq_true, if_false, Except.ok.injEq, Prod.mk.injEq] at h
      obtain ⟨_, hdd, _, _⟩ := h
      subst hdd
      rfl
  · simp only [Except.ok.injEq, Prod.mk.injEq] at h
    obtain ⟨_, hdd, _, _⟩ := h
    subst hdd
    rfl

/-- Skill execution appends exactly one event, and it is neither a
skill_use nor a dot event. -/
theorem executeSkill_event (att dfn : FighterState) (sk : Skill) (r : Rng)
    (evs : List Event) (a1 d1 : FighterState) (r1 : Rng) (evs1 : List Event)
    (h : executeSkill att dfn sk r evs = .ok (a1, d1, r1, evs1)) :
    ∃ ev, evs1 = evs ++ [ev] ∧ ev.type ≠ "skill_use" ∧ ev.type ≠ "dot" := by
  unfold executeSkill at h
  split at h
  · split at h
    next => cases h
    next d r2 hrand =>
      simp only [Except.ok.injEq, Prod.mk.injEq] at h
      obtain ⟨_, _, _, hevs⟩ := h
      exact ⟨_, hevs.symm, by simp, by simp⟩
  · by_cases hc : Frac.le (randFloat r).1 sk.chance = true
    · simp only [hc, if_true] at h
      cases hst : sk.status with
      | none => simp only [hst] at h; cases h
      | some sname =>
        simp only [hst, Except.ok.injEq, Prod.mk.injEq] at h
        obtain ⟨_, _, _, hevs⟩ := h
        exact ⟨_, hevs.symm, by simp, by simp⟩
    · rw [Bool.not_eq_true] at hc
      simp only [hc, Bool.false_eq_true, if_false, Except.ok.injEq, Prod.mk.injEq] at h
      obtain ⟨_, _, _, hevs⟩ := h
      exact ⟨_, hevs.symm, by simp, by simp⟩
  · simp only [Except.ok.injEq, Prod.mk.injEq] at h
    obtain ⟨_, _, _, hevs⟩ := h
    exact ⟨_, hevs.symm, by simp, by simp⟩

/-- One action phase only appends events. -/
theorem takeAction_events (skills : List (String × Skill))
    (att dfn : FighterState) (r : Rng) (evs : List Event) (forced : Option String)
    (a1 d1 : FighterState) (r1 : Rng) (evs1 : List Event)
    (h : takeAction skills att dfn r evs forced = .ok (a1, d1, r1, evs1)) :
    ∃ ext, evs1 = evs ++ ext := by
  unfold takeAction at h
  cases hso : silenceOverride att with
  | some st =>
    simp only [hso] at h
    split at h
    next => cases h
    next sk r2 hres =>
      split at h
      next => cases h
      next a2 d2 r3 evs3 hexe =>
        obtain ⟨ev, hev, _, _⟩ := executeSkill_event _ _ _ _ _ _ _ _ _ hexe
        split at h <;>
        · simp only [Except.ok.injEq, Prod.mk.injEq] at h
          obtain ⟨_, _, _, hevs⟩ := h
          refine ⟨⟨"forced_basic_attack", some att.name, none,
            [("reason", DVal.s st.name)]⟩ ::
            ⟨"skill_use", some att.name, none,
              [("skill_key", DVal.s sk.key), ("skill_name", DVal.s sk.name)]⟩ :: [ev], ?_⟩
          rw [← hevs, hev]
          simp [List.append_assoc]
  | none =>
    simp only [hso] at h
    split at h
    next => cases h
    next sk r2 hres =>
      split at h
      next => cases h
      next a2 d2 r3 evs3 hexe =>
        obtain ⟨ev, hev, _, _⟩ := executeSkill_event _ _ _ _ _ _ _ _ _ hexe
        split at h <;>
        · simp only [Except.ok.injEq, Prod.mk.injEq] at h
          obtain ⟨_, _, _, hevs⟩ := h
          refine ⟨⟨"skill_use", some att.name, none,
            [("skill_key", DVal.s sk.key), ("skill_name", DVal.s sk.name)]⟩ :: [ev], ?_⟩
          rw [← hevs, hev]
          simp [List.append_assoc]

/-- One action phase under a catalog that never applies silence keeps a
silence-free defender silence-free. -/
theorem takeAction_dfn_noSilence (skills : List (String × Skill))
    (att dfn : FighterState) (r : Rng) (evs : List Event) (forced : Option String)
    (a1 d1 : FighterState) (r1 : Rng) (evs1 : List Event)
    (hns : ∀ p ∈ skills, p.2.status ≠ some "silence")
    (hd : ∀ st ∈ dfn.statuses, st.name ≠ "silence")
    (h : takeAction skills att dfn r evs forced = .ok (a1, d1, r1, evs1)) :
    ∀ st ∈ d1.statuses, st.name ≠ "silence" := by
  unfold takeAction at h
  cases hso : silenceOverride att <;>
  · simp only [hso] at h
    split at h
    next => cases h
    next sk r2 hres =>
      obtain ⟨p, hp, hp2⟩ := resolveSelected_mem _ _ _ _ _ _ hres
      have hsk : sk.status ≠ some "silence" := hp2 ▸ hns p hp
      split at h
      next => cases h
      next a2 d2 r3 evs3 hexe =>
        have hout := executeSkill_dfn_noSilence _ _ _ _ _ _ _ _ _ hsk hd hexe
        split at h <;>
        · simp only [Except.ok.injEq, Prod.mk.injEq] at h
          obtain ⟨_, hdd, _, _⟩ := h
          subst hdd
          exact hout

/-- One action phase never changes the defender's cooldowns. -/
theorem takeAction_dfn_cooldowns (skills : List (String × Skill))
    (att dfn : FighterState) (r : Rng) (evs : List Event) (forced : Option String)
    (a1 d1 : FighterState) (r1 : Rng) (evs1 : List Event)
    (h : takeAction skills att dfn r evs forced = .ok (a1, d1, r1, evs1)) :
    d1.cooldowns = dfn.cooldowns := by
  unfold takeAction at h
  cases hso : silenceOverride att <;>
  · simp only [hso] at h
    split at h
    next => cases h
    next sk r2 hres =>
      split at h
      next => cases h
      next a2 d2 r3 evs3 hexe =>
        have hout := executeSkill_dfn_cooldowns _ _ _ _ _ _ _ _ _ hexe
        split at h <;>
        · simp only [Except.ok.injEq, Prod.mk.injEq] at h
          obtain ⟨_, hdd, _, _⟩ := h
          subst hdd
          exact hout

/-- Action resolution with a nonempty forced key that is stored in the
catalog and is off cooldown or the basic attack uses exactly that
skill and consumes no randomness. -/
theorem resolveSelected_forced (skills : List (String × Skill)) (att : FighterState)
    (k : String) (sk : Skill) (r : Rng)
    (hlk : lookupSkill skills k = some sk) (hk : k ≠ "")
    (hcd : cdGet att.cooldowns k = 0 ∨ k = BASIC_ATTACK_KEY) :
    resolveSelected skills att (some k) r = .ok (sk, r) := by
  rw [resolveSelected]
  rw [if_neg hk]
  simp only [hlk]
  rcases hcd with hcd | hcd
  · rw [if_pos hcd]
  · by_cases hz : cdGet att.cooldowns k = 0
    · rw [if_pos hz]
    · rw [if_neg hz, if_pos hcd]

/-- An unsilenced attacker with an executable forced key performs exactly
that skill: the appended events are the skill_use naming the forced skill
followed by one execution event. -/
theorem takeAction_forced_use (skills : List (String × Skill))
    (att dfn : FighterState) (r : Rng) (evs : List Event) (k : String) (sk : Skill)
    (a1 d1 : FighterState) (r1 : Rng) (evs1 : List Event)
    (hso : silenceOverride att = none)
    (hlk : lookupSkill skills k = some sk) (hk : k ≠ "")
    (hcd : cdGet att.cooldowns k = 0 ∨ k = BASIC_ATTACK_KEY)
    (h : takeAction skills att dfn r evs (some k) = .ok (a1, d1, r1, evs1)) :
    ∃ ev2, evs1 = evs ++
      [⟨"skill_use", some att.name, none,
        [("skill_key", DVal.s sk.key), ("skill_name", DVal.s sk.name)]⟩, ev2] ∧
      ev2.type ≠ "skill_use" ∧ ev2.type ≠ "dot" := by
  unfold takeAction at h
  simp only [hso] at h
  split at h
  next => cases h
  next sk2 r2 hres =>
    rw [resolveSelected_forced skills att k sk r hlk hk hcd] at hres
    rw [Except.ok.injEq, Prod.mk.injEq] at hres
    obtain ⟨hsk2, hr2⟩ := hres
    subst hsk2
    subst hr2
    split at h
    next => cases h
    next a2 d2 r3 evs3 hexe =>
      obtain ⟨ev, hev, hevt1, hevt2⟩ := executeSkill_event _ _ _ _ _ _ _ _ _ hexe
      split at h <;>
      · simp only [Except.ok.injEq, Prod.mk.injEq] at h
        obtain ⟨_, _, _, hevs⟩ := h
        refine ⟨ev, ?_, hevt1, hevt2⟩
        rw [← hevs, hev]
        simp [List.append_assoc]

/-- A list without skill_use events filters to nothing under the
skill_use predicate. -/
theorem filter_skill_use_nil (l : List Event)
    (h : ∀ e ∈ l, e.type ≠ "skill_use") :
    l.filter (fun e => e.type == "skill_use") = [] :=
  List.filter_eq_nil_iff.mpr (fun e he => by simp [h e he])

/-- Filtering a skill-use-free list extended by a skill_use event and one
other event keeps exactly the skill_use event. -/
theorem filter_skill_use_pair (e1 e2 : Event) (evs : List Event)
    (h0 : ∀ e ∈ evs, e.type ≠ "skill_use")
    (h1 : e1.type = "skill_use") (h2 : e2.type ≠ "skill_use") :
    (evs ++ [e1, e2]).filter (fun e => e.type == "skill_use") = [e1] := by
  rw [List.filter_append, filter_skill_use_nil _ h0, List.nil_append,
    List.filter_cons, if_pos (by simp [h1]), List.filter_cons, if_neg (by simp [h2]),
    List.filter_nil]

/-- The final win check of a round: the log receives the incoming events
plus only battle_over events. -/
theorem checkWinner_log_events (bb : BattleState) (evs : List Event) (r : Rng)
    (b3 : BattleState) (log : BattleLog)
    (h : (Except.ok (syncRngState (checkWinner bb evs).1 r,
        (⟨(checkWinner bb evs).1.round_no, (checkWinner bb evs).2.1⟩ : BattleLog)) :
        Except String (BattleState × BattleLog)) = Except.ok (b3, log)) :
    ∃ ext, log.events = evs ++ ext ∧ ∀ e ∈ ext, e.type = "battle_over" := by
  rw [Except.ok.injEq, Prod.mk.injEq] at h
  obtain ⟨_, h2⟩ := h
  subst h2
  show ∃ ext, (checkWinner bb evs).2.1 = evs ++ ext ∧
    ∀ e ∈ ext, e.type = "battle_over"
  simp only [checkWinner]
  split
  · exact ⟨[], (List.append_nil evs).symm, by intro e he; cases he⟩
  · refine ⟨[_], rfl, ?_⟩
    intro e he
    rw [List.mem_singleton] at he
    rw [he]

/-- A resolved round with an executable forced player key on an unsilenced
player: the first skill_use event of the log names exactly the forced
player skill; when additionally no catalog skill applies silence, the ai
carries no surviving silence and the forced ai key is executable, a second
skill_use event, if present, names exactly the forced ai skill. -/
theorem advanceRound_forced_uses (skills : List (String × Skill))
    (B : BattleState) (ka kb : String) (ska skb : Skill)
    (b3 : BattleState) (log : BattleLog)
    (hov : B.is_over = false)
    (hsilP : ∀ st ∈ B.player.statuses, st.name = "silence" → st.duration ≤ 1)
    (hlkA : lookupSkill skills ka = some ska) (hkA : ka ≠ "")
    (hcdA : cdGet B.player.cooldowns ka = 0 ∨ ka = BASIC_ATTACK_KEY)
    (h : advanceRound skills B (some ka) (some kb) = .ok (b3, log)) :
    ((log.events.filter (fun e => e.type == "skill_use")).head?.map
      (fun e => (detailGet e.detail "skill_key", detailGet e.detail "skill_name"))) =
      some (.ok (DVal.s ska.key), .ok (DVal.s ska.name)) ∧
    ((∀ p ∈ skills, p.2.status ≠ some "silence") →
     (∀ st ∈ B.ai.statuses, st.name = "silence" → st.duration ≤ 1) →
     lookupSkill skills kb = some skb → kb ≠ "" →
     (cdGet B.ai.cooldowns kb = 0 ∨ kb = BASIC_ATTACK_KEY) →
     ∀ e, (log.events.filter (fun e => e.type == "skill_use")).get? 1 = some e →
       detailGet e.detail "skill_key" = .ok (DVal.s skb.key) ∧
       detailGet e.detail "skill_name" = .ok (DVal.s skb.name)) := by
  obtain ⟨o, ho⟩ := getRng_snd_shape B
  unfold advanceRound at h
  split at h
  next hovt => rw [hov] at hovt; cases hovt
  next =>
    simp only [ho] at h
    have hso1 : silenceOverride (onTurnStart B.player
        [⟨"round_start", none, none, [("round", DVal.i (B.round_no + 1))]⟩]).1 = none :=
      silenceOverride_none _ (onTurnStart_silence_gone B.player _ hsilP)
    have hcd1 : cdGet (onTurnStart B.player
        [⟨"round_start", none, none, [("round", DVal.i (B.round_no + 1))]⟩]).1.cooldowns
        ka = 0 ∨ ka = BASIC_ATTACK_KEY := by
      rcases hcdA with hc | hc
      · left
        rw [onTurnStart_cooldowns]
        exact cdGet_decAll_zero _ _ hc
      · right; exact hc
    split at h
    next => cases h
    next p2 a2 r1 evs3 heq1 =>
      obtain ⟨evA, hevA, hevAt1, hevAt2⟩ :=
        takeAction_forced_use skills _ _ _ _ ka ska p2 a2 r1 evs3 hso1 hlkA hkA hcd1 heq1
      obtain ⟨ts1x, hts1, hts1t⟩ := onTurnStart_events B.player
        [⟨"round_start", none, none, [("round", DVal.i (B.round_no + 1))]⟩]
      obtain ⟨ts2x, hts2, hts2t⟩ := onTurnStart_events B.ai
        (onTurnStart B.player
          [⟨"round_start", none, none, [("round", DVal.i (B.round_no + 1))]⟩]).2
      have hpre : ∀ e ∈ (onTurnStart B.ai (onTurnStart B.player
          [⟨"round_start", none, none, [("round", DVal.i (B.round_no + 1))]⟩]).2).2,
          e.type ≠ "skill_use" := by
        intro e he
        rw [hts2, hts1] at he
        simp only [List.mem_append, List.mem_singleton] at he
        rcases he with (he | he) | he
        · rw [he]; simp
        · rw [hts1t e he]; simp
        · rw [hts2t e he]; simp
      have hfil3 : evs3.filter (fun e => e.type == "skill_use") =
          [⟨"skill_use", some (onTurnStart B.player
              [⟨"round_start", none, none, [("round", DVal.i (B.round_no + 1))]⟩]).1.name,
            none, [("skill_key", DVal.s ska.key), ("skill_name", DVal.s ska.name)]⟩] := by
        rw [hevA]
        exact filter_skill_use_pair _ _ _ hpre rfl hevAt1
      split at h
      next hcond =>
        obtain ⟨ext3, hlogev, hbo⟩ := checkWinner_log_events _ _ _ _ _ h
        rw [hlogev, List.filter_append, hfil3,
          filter_skill_use_nil ext3 (by intro e he; rw [hbo e he]; simp)]
        constructor
        · rfl
        · intro _ _ _ _ _ e hge
          have h0 : (none : Option Event) = some e := hge
          exact Option.noConfusion h0
      next hcond =>
        have hw1 := checkWinner_flag_false _ _ (by simpa using hcond)
        simp only [hw1] at h
        split at h
        next => cases h
        next a3 p3 r2 evs5 heq2 =>
          obtain ⟨ext2, hext2⟩ :=
            takeAction_events skills _ _ _ _ (some kb) a3 p3 r2 evs5 heq2
          have hfil5a : evs5.filter (fun e => e.type == "skill_use") =
              [⟨"skill_use", some (onTurnStart B.player
                  [⟨"round_start", none, none,
                    [("round", DVal.i (B.round_no + 1))]⟩]).1.name,
                none, [("skill_key", DVal.s ska.key), ("skill_name", DVal.s ska.name)]⟩] ++
              ext2.filter (fun e => e.type == "skill_use") := by
            rw [hext2, List.filter_append, hfil3]
          have hextB : (∀ p ∈ skills, p.2.status ≠ some "silence") →
              (∀ st ∈ B.ai.statuses, st.name = "silence" → st.duration ≤ 1) →
              lookupSkill skills kb = some skb → kb ≠ "" →
              (cdGet B.ai.cooldowns kb = 0 ∨ kb = BASIC_ATTACK_KEY) →
              ext2.filter (fun e => e.type == "skill_use") =
                [⟨"skill_use", some a2.name, none,
                  [("skill_key", DVal.s skb.key), ("skill_name", DVal.s skb.name)]⟩] := by
            intro hnsil hsilA hlkB hkB hcdB
            have hsoB : silenceOverride a2 = none :=
              silenceOverride_none _ (takeAction_dfn_noSilence skills _ _ _ _ _ _ _ _ _
                hnsil (onTurnStart_silence_gone B.ai _ hsilA) heq1)
            have hcdB2 : cdGet a2.cooldowns kb = 0 ∨ kb = BASIC_ATTACK_KEY := by
              rcases hcdB with hc | hc
              · left
                rw [takeAction_dfn_cooldowns skills _ _ _ _ _ _ _ _ _ heq1,
                  onTurnStart_cooldowns]
                exact cdGet_decAll_zero _ _ hc
              · right; exact hc
            obtain ⟨evB, hevB, hevBt1, hevBt2⟩ :=
              takeAction_forced_use skills a2 p2 r1 evs3 kb skb a3 p3 r2 evs5
                hsoB hlkB hkB hcdB2 heq2
            have hxt : ext2 = [⟨"skill_use", some a2.name, none,
                [("skill_key", DVal.s skb.key), ("skill_name", DVal.s skb.name)]⟩, evB] :=
              List.append_cancel_left (hext2.symm.trans hevB)
            rw [hxt, List.filter_cons, if_pos (by simp), List.filter_cons,
              if_neg (by simp [hevBt1]), List.filter_nil]
          split at h
          next hcond2 =>
            obtain ⟨ext4, hlogev, hbo⟩ := checkWinner_log_events _ _ _ _ _ h
            rw [hlogev, List.filter_append, hfil5a,
              filter_skill_use_nil ext4 (by intro e he; rw [hbo e he]; simp)]
            constructor
            · rfl
            · intro hnsil hsilA hlkB hkB hcdB e hge
              rw [hextB hnsil hsilA hlkB hkB hcdB] at hge
              have h0 : some (⟨"skill_use", some a2.name, none,
                  [("skill_key", DVal.s skb.key),
                   ("skill_name", DVal.s skb.name)]⟩ : Event) = some e := hge
              rw [Option.some.injEq] at h0
              rw [← h0]
              exact ⟨rfl, rfl⟩
          next hcond2 =>
            have hw2 := checkWinner_flag_false _ _ (by simpa using hcond2)
            simp only [hw2] at h
            obtain ⟨dpx, hdpx, hdpxt⟩ := onTurnEndDot_events_any p3 evs5
            obtain ⟨dax, hda, hdat⟩ :=
              onTurnEndDot_events_any a3 (onTurnEndDot p3 evs5).2
            obtain ⟨ext4, hlogev, hbo⟩ := checkWinner_log_events _ _ _ _ _ h
            rw [hda, hdpx] at hlogev
            rw [hlogev, List.filter_append, List.filter_append, List.filter_append,
              hfil5a,
              filter_skill_use_nil dpx (by intro e he; rw [(hdpxt e he).1]; simp),
              filter_skill_use_nil dax (by intro e he; rw [(hdat e he).1]; simp),
              filter_skill_use_nil ext4 (by intro e he; rw [hbo e he]; simp)]
            constructor
            · rfl
            · intro hnsil hsilA hlkB hkB hcdB e hge
              rw [hextB hnsil hsilA hlkB hkB hcdB] at hge
              have h0 : some (⟨"skill_use", some a2.name, none,
                  [("skill_key", DVal.s skb.key),
                   ("skill_name", DVal.s skb.name)]⟩ : Event) = some e := hge
              rw [Option.some.injEq] at h0
              rw [← h0]
              exact ⟨rfl, rfl⟩

/-- Full shape of an accepted first submission from the actor bound to
slot A of an open room: the previewed ordinal maps back to a stored
catalog skill that is executable for the player fighter, the
acknowledgement names that ordinal and skill, and the battle records the
ordinal in the pending map while only the serialized token otherwise
changes. -/
theorem submitAfterBind_first_spec (skills : List (String × Skill)) (b : BattleState)
    (u : Int) (m : String) (res : SubmitActionResult) (bRes : BattleState)
    (wfk : ∀ p ∈ skills, p.2.key = p.1)
    (wfn : (skills.map (fun p => p.1)).Nodup)
    (hpend : pendingContains b.pending_action u = false)
    (hfa : b.player_a_id = some u)
    (hb : b.player_b_id = none)
    (h : submitAfterBind skills b u m = .ok (res, bRes)) :
    ∃ n sk tok,
      skillNumberToKey skills n = .ok sk.key ∧
      lookupSkill skills sk.key = some sk ∧
      (∃ p ∈ skills, p.1 = sk.key) ∧
      (cdGet b.player.cooldowns sk.key = 0 ∨ sk.key = BASIC_ATTACK_KEY) ∧
      res = ⟨"回合开始咯，请等待玩家响应~\n本轮" ++ m ++ "要用" ++
        toString n ++ "号" ++ sk.name, none⟩ ∧
      bRes = { b with
        rng_state_b64 := some tok,
        pending_action := pendingSet b.pending_action u n } := by
  unfold submitAfterBind at h
  simp only [hpend, Bool.false_eq_true, if_false] at h
  rw [if_pos hfa] at h
  split at h
  · cases h
  case _ n b1 hpick =>
    obtain ⟨sk, tok, hn2k, hlk, hmemk, hcd, hb1⟩ :=
      pickLocked_spec skills b b.player n b1 wfk wfn hpick
    subst hb1
    simp only [hn2k, hlk] at h
    have hproj : ({ b with
        rng_state_b64 := some tok,
        pending_action := pendingSet b.pending_action u n } :
      BattleState).player_b_id = b.player_b_id := rfl
    rw [hproj, hb] at h
    split at h
    case _ aid bid heq1 heq2 => cases heq2
    case _ hno =>
      rw [Except.ok.injEq, Prod.mk.injEq] at h
      obtain ⟨h1, h2⟩ := h
      refine ⟨n, sk, tok, hn2k, hlk, hmemk, hcd, h1.symm, ?_⟩
      rw [hb]
      exact h2.symm

/-- Full shape of an accepted second submission from the actor bound to
slot B: the second preview records an ordinal that maps back to a stored
executable catalog skill for the ai fighter, the acknowledgement names
that ordinal and skill, and the round is resolved by advance_round
forcing exactly the two recorded keys before the pending map is
cleared. -/
theorem submitAfterBind_second_spec (skills : List (String × Skill)) (b : BattleState)
    (v au na : Int) (ka : String) (m : String)
    (res : SubmitActionResult) (bRes : BattleState)
    (wfk : ∀ p ∈ skills, p.2.key = p.1)
    (wfn : (skills.map (fun p => p.1)).Nodup)
    (hpend : pendingContains b.pending_action v = false)
    (ha : b.player_a_id = some au) (hbv : b.player_b_id = some v)
    (hne : au ≠ v)
    (hain : pendingGet? b.pending_action au = some na)
    (hka : skillNumberToKey skills na = .ok ka)
    (h : submitAfterBind skills b v m = .ok (res, bRes)) :
    ∃ n sk tok b3 log rep,
      skillNumberToKey skills n = .ok sk.key ∧
      lookupSkill skills sk.key = some sk ∧
      (∃ p ∈ skills, p.1 = sk.key) ∧
      (cdGet b.ai.cooldowns sk.key = 0 ∨ sk.key = BASIC_ATTACK_KEY) ∧
      res = ⟨"回合开始咯，请等待玩家响应~\n本轮" ++ m ++ "要用" ++
        toString n ++ "号" ++ sk.name, some rep⟩ ∧
      advanceRound skills
        { b with
          rng_state_b64 := some tok,
          pending_action := pendingSet b.pending_action v n }
        (some ka) (some sk.key) = .ok (b3, log) ∧
      bRes = { b3 with pending_action := [] } := by
  unfold submitAfterBind at h
  simp only [hpend, Bool.false_eq_true, if_false] at h
  rw [if_neg (by rw [ha]; exact fun hx => hne (Option.some.inj hx))] at h
  split at h
  · cases h
  case _ n b1 hpick =>
    obtain ⟨sk, tok, hn2k, hlk, hmemk, hcd, hb1⟩ :=
      pickLocked_spec skills b b.ai n b1 wfk wfn hpick
    subst hb1
    simp only [hn2k, hlk] at h
    have hpa : ({ b with
        rng_state_b64 := some tok,
        pending_action := pendingSet b.pending_action v n } :
      BattleState).player_a_id = b.player_a_id := rfl
    have hpb : ({ b with
        rng_state_b64 := some tok,
        pending_action := pendingSet b.pending_action v n } :
      BattleState).player_b_id = b.player_b_id := rfl
    rw [hpa, hpb, ha, hbv] at h
    have hx : pendingContains (pendingSet b.pending_action v n) au = true := by
      rw [pendingContains_set_other _ _ _ _ hne]
      exact pendingGet?_contains _ _ _ hain
    have hy : pendingContains (pendingSet b.pending_action v n) v = true :=
      pendingContains_set_self _ _ _
    have hga : pendingGet? (pendingSet b.pending_action v n) au = some na := by
      rw [pendingGet?_set_other _ _ _ _ hne, hain]
    have hgv : pendingGet? (pendingSet b.pending_action v n) v = some n :=
      pendingGet?_set_self _ _ _
    simp only [hx, hy, hga, hgv, not_true, or_self, if_false] at h
    simp only [hka, hn2k] at h
    split at h
    · cases h
    case _ b3 log hadv =>
      split at h
      · cases h
      case _ rep hrep =>
        rw [Except.ok.injEq, Prod.mk.injEq] at h
        obtain ⟨h1, h2⟩ := h
        refine ⟨n, sk, tok, b3, log, rep, hn2k, hlk, hmemk, hcd, h1.symm, ?_, h2.symm⟩
        rw [ha, hbv]
        exact hadv

/-- C1 (amended): for a well-formed catalog (each skill stored under its
own nonempty key, no duplicate keys) and two accepted submissions from
distinct actors into an open non-terminal room with a clean pending map,
the first acknowledgement names exactly the previewed-and-recorded
ordinal's skill, the second submission resolves the round by forcing
exactly the two recorded keys, and — provided the player carries no
Silence surviving the turn-start decrement — the first skill_use event of
the resolution log names exactly the first acknowledgement's skill;
provided additionally that no catalog skill applies silence and the ai
fighter carries no surviving silence either, a second skill_use event, if
present, names exactly the second acknowledgement's skill.  Without the
silence provisos this fails, so the original unconditional claim is
false. -/
theorem submitAction_preview_executed (skills : List (String × Skill))
    (b : BattleState) (u v : Int) (m1 m2 : String)
    (r1 : SubmitActionResult) (b1 : BattleState)
    (r2 : SubmitActionResult) (b2 : BattleState)
    (wfk : ∀ p ∈ skills, p.2.key = p.1)
    (wfn : (skills.map (fun p => p.1)).Nodup)
    (wfe : ∀ p ∈ skills, p.1 ≠ "")
    (huv : u ≠ v)
    (ha : b.player_a_id = none) (hb : b.player_b_id = none)
    (hov : b.is_over = false)
    (hpu : pendingContains b.pending_action u = false)
    (hpv : pendingContains b.pending_action v = false)
    (hsilP : ∀ st ∈ b.player.statuses, st.name = "silence" → st.duration ≤ 1)
    (h1 : submitAction skills b u m1 = .ok (r1, b1))
    (h2 : submitAction skills b1 v m2 = .ok (r2, b2)) :
    ∃ (na : Int) (ska : Skill) (nb : Int) (skb : Skill) (tok2 : List Nat)
      (b3 : BattleState) (log : BattleLog),
      pendingGet? b1.pending_action u = some na ∧
      skillNumberToKey skills na = .ok ska.key ∧
      r1.message = "回合开始咯，请等待玩家响应~\n本轮" ++ m1 ++ "要用" ++
        toString na ++ "号" ++ ska.name ∧
      skillNumberToKey skills nb = .ok skb.key ∧
      r2.message = "回合开始咯，请等待玩家响应~\n本轮" ++ m2 ++ "要用" ++
        toString nb ++ "号" ++ skb.name ∧
      advanceRound skills
        { b1 with
          player_b_id := some v,
          rng_state_b64 := some tok2,
          pending_action := pendingSet b1.pending_action v nb }
        (some ska.key) (some skb.key) = .ok (b3, log) ∧
      b2 = { b3 with pending_action := [] } ∧
      ((log.events.filter (fun e => e.type == "skill_use")).head?.map
        (fun e => (detailGet e.detail "skill_key", detailGet e.detail "skill_name"))) =
        some (.ok (DVal.s ska.key), .ok (DVal.s ska.name)) ∧
      ((∀ p ∈ skills, p.2.status ≠ some "silence") →
       (∀ st ∈ b.ai.statuses, st.name = "silence" → st.duration ≤ 1) →
       ∀ e, (log.events.filter (fun e => e.type == "skill_use")).get? 1 = some e →
         detailGet e.detail "skill_key" = .ok (DVal.s skb.key) ∧
         detailGet e.detail "skill_name" = .ok (DVal.s skb.name)) := by
  unfold submitAction at h1
  rw [if_pos ha] at h1
  obtain ⟨na, ska, tok1, hka, hlkA, hmemA, hcdA, hr1, hb1⟩ :=
    submitAfterBind_first_spec skills { b with player_a_id := some u } u m1 r1 b1
      wfk wfn hpu rfl hb h1
  subst hb1
  unfold submitAction at h2
  rw [if_neg (by simp)] at h2
  rw [if_pos ⟨by simp [Option.some.injEq, huv], hb⟩] at h2
  obtain ⟨nb, skb, tok2, b3, log, rep, hkb, hlkB, hmemB, hcdB, hr2, hadv, hbr⟩ :=
    submitAfterBind_second_spec skills
      { b with
        player_a_id := some u,
        player_b_id := some v,
        rng_state_b64 := some tok1,
        pending_action := pendingSet b.pending_action u na }
      v u na ska.key m2 r2 b2 wfk wfn
      (by show pendingContains (pendingSet b.pending_action u na) v = false
          rw [pendingContains_set_other _ _ _ _ (Ne.symm huv), hpv])
      rfl rfl huv
      (by show pendingGet? (pendingSet b.pending_action u na) u = some na
          exact pendingGet?_set_self _ _ _)
      hka h2
  have hkAne : ska.key ≠ "" := by
    obtain ⟨p, hp, hpk⟩ := hmemA
    rw [← hpk]
    exact wfe p hp
  have hkBne : skb.key ≠ "" := by
    obtain ⟨p, hp, hpk⟩ := hmemB
    rw [← hpk]
    exact wfe p hp
  obtain ⟨hparta, hpartb⟩ := advanceRound_forced_uses skills
    { b with
      player_a_id := some u,
      player_b_id := some v,
      rng_state_b64 := some tok2,
      pending_action := pendingSet (pendingSet b.pending_action u na) v nb }
    ska.key skb.key ska skb b3 log hov hsilP hlkA hkAne hcdA hadv
  refine ⟨na, ska, nb, skb, tok2, b3, log, ?_, hka, ?_, hkb, ?_, ?_, hbr, hparta, ?_⟩
  · exact pendingGet?_set_self _ _ _
  · rw [hr1]
  · rw [hr2]
  · exact hadv
  · intro hnsil hsilA e hge
    exact hpartb hnsil hsilA hlkB hkBne hcdB e hge

/-- Witness instantiating submitAction_preview_executed on a fresh example
battle with actors 1 and 2. -/
theorem submitAction_preview_executed_witness :
    (∀ p ∈ exSkills, p.2.key = p.1) ∧
    (exSkills.map (fun p => p.1)).Nodup ∧
    (∀ p ∈ exSkills, p.1 ≠ "") ∧
    (1 : Int) ≠ 2 ∧
    exBattle.player_a_id = none ∧ exBattle.player_b_id = none ∧
    exBattle.is_over = false ∧
    pendingContains exBattle.pending_action 1 = false ∧
    pendingContains exBattle.pending_action 2 = false ∧
    (∀ st ∈ exBattle.player.statuses, st.name = "silence" → st.duration ≤ 1) ∧
    submitAction exSkills exBattle 1 "@u1" = .ok (c4r1, c4b1) ∧
    submitAction exSkills c4b1 2 "@u2" = .ok (c4r2, c4b2) ∧
    (∃ (na : Int) (ska : Skill) (nb : Int) (skb : Skill) (tok2 : List Nat)
      (b3 : BattleState) (log : BattleLog),
      pendingGet? c4b1.pending_action 1 = some na ∧
      skillNumberToKey exSkills na = .ok ska.key ∧
      c4r1.message = "回合开始咯，请等待玩家响应~\n本轮" ++ "@u1" ++ "要用" ++
        toString na ++ "号" ++ ska.name ∧
      skillNumberToKey exSkills nb = .ok skb.key ∧
      c4r2.message = "回合开始咯，请等待玩家响应~\n本轮" ++ "@u2" ++ "要用" ++
        toString nb ++ "号" ++ skb.name ∧
      advanceRound exSkills
        { c4b1 with
          player_b_id := some 2,
          rng_state_b64 := some tok2,
          pending_action := pendingSet c4b1.pending_action 2 nb }
        (some ska.key) (some skb.key) = .ok (b3, log) ∧
      c4b2 = { b3 with pending_action := [] } ∧
      ((log.events.filter (fun e => e.type == "skill_use")).head?.map
        (fun e => (detailGet e.detail "skill_key", detailGet e.detail "skill_name"))) =
        some (.ok (DVal.s ska.key), .ok (DVal.s ska.name)) ∧
      ((∀ p ∈ exSkills, p.2.status ≠ some "silence") →
       (∀ st ∈ exBattle.ai.statuses, st.name = "silence" → st.duration ≤ 1) →
       ∀ e, (log.events.filter (fun e => e.type == "skill_use")).get? 1 = some e →
         detailGet e.detail "skill_key" = .ok (DVal.s skb.key) ∧
         detailGet e.detail "skill_name" = .ok (DVal.s skb.name))) :=
  ⟨by decide, by decide, by decide, by decide, rfl, rfl, rfl, rfl, rfl,
   by decide, by decide, by decide,
   submitAction_preview_executed exSkills exBattle 1 2 "@u1" "@u2" c4r1 c4b1 c4r2 c4b2
     (by decide) (by decide) (by decide) (by decide) rfl rfl rfl rfl rfl
     (by decide) (by decide) (by decide)⟩

/-- Counterexample to C1 as stated: on a battle whose player is silenced
for two rounds, the first submission acknowledges ordinal 2 (重击, the
heavy strike) and records it, yet resolving the round with exactly the
recorded forced key executes the basic attack (普攻) for the player — the
acknowledged skill is not the skill actually executed. -/
theorem submitAction_silence_preview_mismatch :
    silBattle.player.statuses = [⟨"silence", 2, 0⟩] ∧
    submitAction exSkills silBattle 1 "@u1" = .ok (c1r1, c1b1) ∧
    c1r1.message = "回合开始咯，请等待玩家响应~\n本轮@u1要用2号重击" ∧
    pendingGet? c1b1.pending_action 1 = some 2 ∧
    skillNumberToKey exSkills 2 = .ok "heavy_strike" ∧
    ("heavy_strike" : String) ≠ "basic_attack" ∧
    (advanceRound exSkills c1b1 (some "heavy_strike") (some "basic_attack")).map
      (fun p => (p.2.events.filter (fun e => e.type == "skill_use")).head?.map
        (fun e => (detailGet e.detail "skill_key", detailGet e.detail "skill_name"))) =
      .ok (some (.ok (DVal.s "basic_attack"), .ok (DVal.s "普攻"))) :=
  ⟨rfl, by decide, by decide, by decide, by decide, by decide, by decide⟩

end MudBattle
